import Mathlib

/-!
A verification development for the AnythingLLM custom-skill editor
(`Anything_CustomSkill_Editor.py`).  The program is a PySide6 GUI that
creates, lists, modifies and deletes "skill" folders, each holding a
`plugin.json` metadata file and a `handler.js` script.  We embed the
filesystem-facing logic shallowly: form dictionaries become structures,
the filesystem becomes an explicit value threaded through the operations,
and Python's `json.loads` / `json.dumps` (default options: `ensure_ascii`,
separators `", "` and `": "`, and `indent=2` where the program passes it)
are modelled by an executable parser and renderers over `List Char`.

Modelling notes for the `json` library (Python 3 semantics):
* numbers are modelled as arbitrary-precision integers (`Int`); inputs with
  a fraction or exponent (floats, `NaN`, `Infinity`) make the modelled
  parser return `none`, so claims quantified over successfully parsed
  inputs simply do not cover float documents;
* a `\uXXXX` escape denoting a lone surrogate is rejected by the modelled
  parser (Lean's `Char` carries only Unicode scalar values); surrogate
  pairs are combined exactly as Python does;
* duplicate object keys collapse exactly as repeated `dict` assignment
  does in Python: the first occurrence keeps its position, the last
  occurrence provides the value.
-/

namespace SkillEd

/-! ## Python string primitives -/

/-- Whitespace as stripped by Python's `str.strip()` (the ASCII part:
space, tab, newline, carriage return, form feed, vertical tab). -/
def isPySpace (c : Char) : Bool :=
  c = ' ' || c = '\t' || c = '\n' || c = '\x0d' || c = '\x0c' || c = '\x0b'

/-- `str.strip()` on a character list. -/
def pyStripL (cs : List Char) : List Char :=
  ((cs.dropWhile isPySpace).reverse.dropWhile isPySpace).reverse

/-- `str.strip()`. -/
def pyStrip (s : String) : String := String.mk (pyStripL s.toList)

/-- `str.lower()` (ASCII range, which covers the folder names at hand). -/
def pyLowerChar (c : Char) : Char :=
  if 'A' ≤ c ∧ c ≤ 'Z' then Char.ofNat (c.toNat + 32) else c

/-- Lowercase a whole name, as `str.lower` does. -/
def pyLower (cs : List Char) : List Char := cs.map pyLowerChar

/-- Python's `<=` on strings: lexicographic comparison by code point. -/
def pyStrLe : List Char → List Char → Bool
  | [], _ => true
  | _ :: _, [] => false
  | a :: as, b :: bs =>
      if a.toNat < b.toNat then true
      else if b.toNat < a.toNat then false
      else pyStrLe as bs

/-- The comparator behind `sorted(..., key=lambda s: s.lower())`. -/
def lowerLe (a b : String) : Bool := pyStrLe (pyLower a.toList) (pyLower b.toList)

/-- A single-quote character, used to spell the program's error strings. -/
def sq : String := String.mk [Char.ofNat 39]

/-! ## The JSON data model (`json.loads` result values) -/

/-- A parsed JSON document.  Strings are lists of Unicode scalars; numbers
are integers (see the float note in the header). -/
inductive Json where
  | null
  | bool (b : Bool)
  | num (n : Int)
  | str (s : List Char)
  | arr (items : List Json)
  | obj (entries : List (List Char × Json))

instance : Inhabited Json := ⟨Json.null⟩

/-- Key list of an object entry list. -/
def keysOf (ms : List (List Char × Json)) : List (List Char) := ms.map Prod.fst

/-- One `d[k] = v` step on a Python dict held as an association list: an
existing key keeps its position and receives the new value, a new key is
appended. -/
def pyDictSet (ms : List (List Char × Json)) (k : List Char) (v : Json) :
    List (List Char × Json) :=
  if (keysOf ms).contains k then
    ms.map (fun p => if p.1 = k then (k, v) else p)
  else
    ms ++ [(k, v)]

/-- `dict(pairs)`: repeated assignment over the parsed members, collapsing
duplicate keys the way Python does. -/
def pyDictOf (pairs : List (List Char × Json)) : List (List Char × Json) :=
  pairs.foldl (fun acc p => pyDictSet acc p.1 p.2) []

/-! ## `json.loads` -/

/-- Whitespace skipped between JSON tokens (`json.decoder` skips exactly
space, tab, newline, carriage return). -/
def isJsonWs (c : Char) : Bool :=
  c = ' ' || c = '\t' || c = '\n' || c = '\x0d'

/-- Skip inter-token whitespace. -/
def dropWs : List Char → List Char
  | c :: cs => if isJsonWs c then dropWs cs else c :: cs
  | [] => []

/-- ASCII decimal digit test. -/
def isDigitCh (c : Char) : Bool := '0' ≤ c && c ≤ '9'

/-- Split off the leading run of decimal digits. -/
def grabDigits : List Char → List Char × List Char
  | c :: cs =>
      if isDigitCh c then
        let r := grabDigits cs
        (c :: r.1, r.2)
      else ([], c :: cs)
  | [] => ([], [])

/-- Numeric value of a digit run. -/
def digitsVal (ds : List Char) : Nat :=
  ds.foldl (fun acc c => acc * 10 + (c.toNat - 48)) 0

/-- Heads that would extend a JSON number (a digit, `.`, `e` or `E`).
Python parses those as floats, which this model does not cover. -/
def startsNumTail : List Char → Bool
  | [] => false
  | c :: _ => isDigitCh c || c = '.' || c = 'e' || c = 'E'

/-- Parse an integer JSON number (optional minus, digit run with the JSON
leading-zero rule); refuse inputs that continue as floats. -/
def parseNumber (cs : List Char) : Option (Int × List Char) :=
  let core : List Char → Option (Nat × List Char) := fun tail =>
    match grabDigits tail with
    | ([], _) => none
    | (d :: ds, rest) =>
        if d = '0' ∧ ds ≠ [] then none
        else if startsNumTail rest then none
        else some (digitsVal (d :: ds), rest)
  match cs with
  | '-' :: tail => (core tail).map (fun p => (-(p.1 : Int), p.2))
  | _ => (core cs).map (fun p => ((p.1 : Int), p.2))

/-- Value of one hexadecimal digit (both cases accepted, as `int(_, 16)`). -/
def hexDigitVal (c : Char) : Option Nat :=
  if '0' ≤ c ∧ c ≤ '9' then some (c.toNat - 48)
  else if 'a' ≤ c ∧ c ≤ 'f' then some (c.toNat - 87)
  else if 'A' ≤ c ∧ c ≤ 'F' then some (c.toNat - 55)
  else none

/-- Value of a `\uXXXX` escape's four hex digits. -/
def hexQuad (a b c d : Char) : Option Nat := do
  let x ← hexDigitVal a
  let y ← hexDigitVal b
  let z ← hexDigitVal c
  let w ← hexDigitVal d
  pure (x * 4096 + y * 256 + z * 16 + w)

/-- The short escapes of `json.decoder.BACKSLASH`. -/
def shortEscape (c : Char) : Option Char :=
  match c with
  | '"' => some '"'
  | '\\' => some '\\'
  | '/' => some '/'
  | 'b' => some (Char.ofNat 8)
  | 'f' => some (Char.ofNat 12)
  | 'n' => some '\n'
  | 'r' => some (Char.ofNat 13)
  | 't' => some '\t'
  | _ => none

/-- Parse a string body after the opening quote (strict mode: raw control
characters are rejected; surrogate pairs are combined; lone surrogates are
rejected, see the header). -/
def parseStrBody (acc : List Char) : List Char → Option (List Char × List Char)
  | '"' :: rest => some (acc.reverse, rest)
  | '\\' :: 'u' :: a :: b :: c :: d :: rest =>
      match hexQuad a b c d with
      | none => none
      | some n =>
          if 0xd800 ≤ n ∧ n ≤ 0xdbff then
            match rest with
            | '\\' :: 'u' :: a2 :: b2 :: c2 :: d2 :: rest2 =>
                match hexQuad a2 b2 c2 d2 with
                | none => none
                | some n2 =>
                    if 0xdc00 ≤ n2 ∧ n2 ≤ 0xdfff then
                      parseStrBody
                        (Char.ofNat (0x10000 + (n - 0xd800) * 0x400 + (n2 - 0xdc00)) :: acc)
                        rest2
                    else none
            | _ => none
          else if 0xdc00 ≤ n ∧ n ≤ 0xdfff then none
          else parseStrBody (Char.ofNat n :: acc) rest
  | '\\' :: e :: rest =>
      match shortEscape e with
      | some c => parseStrBody (c :: acc) rest
      | none => none
  | c :: rest =>
      if c.toNat < 0x20 then none else parseStrBody (c :: acc) rest
  | [] => none

attribute [irreducible] parseStrBody

mutual

/-- Parse one JSON value (fuel-indexed; `pyLoadsL` supplies ample fuel). -/
def parseValue : Nat → List Char → Option (Json × List Char)
  | 0, _ => none
  | fuel + 1, cs =>
      match dropWs cs with
      | 'n' :: 'u' :: 'l' :: 'l' :: r => some (.null, r)
      | 't' :: 'r' :: 'u' :: 'e' :: r => some (.bool true, r)
      | 'f' :: 'a' :: 'l' :: 's' :: 'e' :: r => some (.bool false, r)
      | '"' :: r => (parseStrBody [] r).map (fun p => (.str p.1, p.2))
      | '[' :: r =>
          (match dropWs r with
           | ']' :: r2 => some (.arr [], r2)
           | r2 => (parseItems fuel r2).map (fun p => (.arr p.1, p.2)))
      | '\x7b' :: r =>
          (match dropWs r with
           | '\x7d' :: r2 => some (.obj [], r2)
           | r2 => (parseEntries fuel r2).map (fun p => (.obj (pyDictOf p.1), p.2)))
      | c :: r =>
          if c = '-' || isDigitCh c then
            (parseNumber (c :: r)).map (fun p => (.num p.1, p.2))
          else none
      | [] => none

/-- Parse one-or-more comma-separated array items up to `]`. -/
def parseItems : Nat → List Char → Option (List Json × List Char)
  | 0, _ => none
  | fuel + 1, cs =>
      match parseValue fuel cs with
      | none => none
      | some (v, r) =>
          match dropWs r with
          | ',' :: r2 =>
              (parseItems fuel r2).map (fun p => (v :: p.1, p.2))
          | ']' :: r2 => some ([v], r2)
          | _ => none

/-- Parse one-or-more comma-separated `"key": value` members up to `}`. -/
def parseEntries : Nat → List Char → Option (List (List Char × Json) × List Char)
  | 0, _ => none
  | fuel + 1, cs =>
      match dropWs cs with
      | '"' :: r =>
          match parseStrBody [] r with
          | none => none
          | some (k, r1) =>
              match dropWs r1 with
              | ':' :: r2 =>
                  match parseValue fuel r2 with
                  | none => none
                  | some (v, r3) =>
                      match dropWs r3 with
                      | ',' :: r4 =>
                          (parseEntries fuel r4).map (fun p => ((k, v) :: p.1, p.2))
                      | '\x7d' :: r4 => some ([(k, v)], r4)
                      | _ => none
              | _ => none
      | _ => none

end

/-- `json.loads` on a character list: a full document, nothing but
whitespace after it. -/
def pyLoadsL (cs : List Char) : Option Json :=
  match parseValue (cs.length + 1) cs with
  | some (v, r) => if dropWs r = [] then some v else none
  | none => none

/-- `json.loads` on a string. -/
def pyLoads (s : String) : Option Json := pyLoadsL s.toList

end SkillEd

namespace SkillEd

/-! ## `json.dumps` (default options: `ensure_ascii=True`, separators
`", "` and `": "`) -/

/-- Lowercase hexadecimal digit, as `"%04x" % n` produces. -/
def lowHex (n : Nat) : Char :=
  if n < 10 then Char.ofNat (48 + n) else Char.ofNat (87 + n)

/-- The four hex digits of a `\uXXXX` escape for `n < 0x10000`. -/
def hexQuadOf (n : Nat) : List Char :=
  [lowHex (n / 4096 % 16), lowHex (n / 256 % 16), lowHex (n / 16 % 16), lowHex (n % 16)]

/-- JSON-escape one character the way `json.encoder` does with
`ensure_ascii`: the `ESCAPE_DCT` short escapes, `\uXXXX` for the other
control and all non-ASCII characters, surrogate pairs beyond the BMP. -/
def escChar (c : Char) : List Char :=
  if c = '\\' then ['\\', '\\']
  else if c = '"' then ['\\', '"']
  else if c = Char.ofNat 8 then ['\\', 'b']
  else if c = Char.ofNat 12 then ['\\', 'f']
  else if c = '\n' then ['\\', 'n']
  else if c = Char.ofNat 13 then ['\\', 'r']
  else if c = '\t' then ['\\', 't']
  else if c.toNat < 0x20 then '\\' :: 'u' :: hexQuadOf c.toNat
  else if c.toNat ≤ 0x7e then [c]
  else if c.toNat < 0x10000 then '\\' :: 'u' :: hexQuadOf c.toNat
  else
    let m := c.toNat - 0x10000
    ('\\' :: 'u' :: hexQuadOf (0xd800 + m / 0x400))
      ++ ('\\' :: 'u' :: hexQuadOf (0xdc00 + m % 0x400))

/-- A quoted, escaped JSON string literal. -/
def quoteStr (s : List Char) : List Char :=
  '"' :: (s.flatMap escChar ++ ['"'])

/-- Decimal digits of a natural number, most significant first, in front
of `acc` (fuel-indexed so the definition is structurally recursive; a
fuel of `n` always suffices since `n / 10` shrinks by at least one). -/
def natCharsF : Nat → Nat → List Char → List Char
  | 0, n, acc => Char.ofNat (48 + n) :: acc
  | fuel + 1, n, acc =>
      if n < 10 then Char.ofNat (48 + n) :: acc
      else natCharsF fuel (n / 10) (Char.ofNat (48 + n % 10) :: acc)

/-- Decimal digits of a natural number, most significant first, in front
of `acc`. -/
def natChars (n : Nat) (acc : List Char) : List Char := natCharsF n n acc

/-- Python's decimal rendering of an integer. -/
def intChars (i : Int) : List Char :=
  if i < 0 then '-' :: natChars i.natAbs [] else natChars i.natAbs []

mutual

/-- Render a value as `json.dumps` with the default separators does. -/
def renderJ : Json → List Char
  | .null => "null".toList
  | .bool true => ['t', 'r', 'u', 'e']
  | .bool false => ['f', 'a', 'l', 's', 'e']
  | .num i => intChars i
  | .str s => quoteStr s
  | .arr items => '[' :: (renderItemsJ items ++ [']'])
  | .obj entries => '\x7b' :: (renderEntriesJ entries ++ ['\x7d'])

/-- Array items joined by `", "`. -/
def renderItemsJ : List Json → List Char
  | [] => []
  | [v] => renderJ v
  | v :: v2 :: vs => renderJ v ++ ',' :: ' ' :: renderItemsJ (v2 :: vs)

/-- Object members `"key": value` joined by `", "`. -/
def renderEntriesJ : List (List Char × Json) → List Char
  | [] => []
  | [(k, v)] => quoteStr k ++ ':' :: ' ' :: renderJ v
  | (k, v) :: e2 :: es =>
      quoteStr k ++ ':' :: ' ' :: renderJ v ++ ',' :: ' ' :: renderEntriesJ (e2 :: es)

end

/-- `json.dumps(v)` with the program's default options, as a string. -/
def pyDumps (v : Json) : String := String.mk (renderJ v)

/-! ## `json.dumps(v, indent=2)`, as passed by the program when it writes
`plugin.json` and when it fills the preview area. -/

/-- A newline followed by `2 * lvl` spaces (the `indent=2` layout). -/
def nlIndent (lvl : Nat) : List Char := '\n' :: List.replicate (2 * lvl) ' '

mutual

/-- Render a value at nesting level `lvl` as `json.dumps(_, indent=2)`. -/
def renderInd : Nat → Json → List Char
  | _, .null => ['n', 'u', 'l', 'l']
  | _, .bool true => ['t', 'r', 'u', 'e']
  | _, .bool false => ['f', 'a', 'l', 's', 'e']
  | _, .num i => intChars i
  | _, .str s => quoteStr s
  | _, .arr [] => ['[', ']']
  | lvl, .arr (v :: vs) =>
      '[' :: (nlIndent (lvl + 1) ++ renderIndItems (lvl + 1) (v :: vs)
        ++ nlIndent lvl ++ [']'])
  | _, .obj [] => ['\x7b', '\x7d']
  | lvl, .obj (e :: es) =>
      '\x7b' :: (nlIndent (lvl + 1) ++ renderIndEntries (lvl + 1) (e :: es)
        ++ nlIndent lvl ++ ['\x7d'])

/-- Array items joined by `,` and a fresh indented line. -/
def renderIndItems : Nat → List Json → List Char
  | _, [] => []
  | lvl, [v] => renderInd lvl v
  | lvl, v :: v2 :: vs =>
      renderInd lvl v ++ ',' :: (nlIndent lvl ++ renderIndItems lvl (v2 :: vs))

/-- Object members joined by `,` and a fresh indented line. -/
def renderIndEntries : Nat → List (List Char × Json) → List Char
  | _, [] => []
  | lvl, [(k, v)] => quoteStr k ++ ':' :: ' ' :: renderInd lvl v
  | lvl, (k, v) :: e2 :: es =>
      quoteStr k ++ ':' :: ' ' :: renderInd lvl v
        ++ ',' :: (nlIndent lvl ++ renderIndEntries lvl (e2 :: es))

end

/-- `json.dumps(v, indent=2)` (equally the text `json.dump(v, f, indent=2)`
writes), as a string. -/
def pyDumpsInd (v : Json) : String := String.mk (renderInd 0 v)

/-! ## Well-formed values: what `json.loads` can actually produce.
Objects built by dict assignment never carry duplicate keys. -/

/-- No key occurs twice in an entry list. -/
def keysDistinct : List (List Char × Json) → Bool
  | [] => true
  | (k, _) :: ms => !((keysOf ms).contains k) && keysDistinct ms

mutual

/-- Every object in the value has pairwise distinct keys. -/
def wfJ : Json → Bool
  | .null => true
  | .bool _ => true
  | .num _ => true
  | .str _ => true
  | .arr items => wfItemsJ items
  | .obj entries => keysDistinct entries && wfEntriesJ entries

/-- `wfJ` over a list of values. -/
def wfItemsJ : List Json → Bool
  | [] => true
  | v :: vs => wfJ v && wfItemsJ vs

/-- `wfJ` over the values of an entry list. -/
def wfEntriesJ : List (List Char × Json) → Bool
  | [] => true
  | (_, v) :: ms => wfJ v && wfEntriesJ ms

end

end SkillEd

namespace SkillEd

/-! ## Character facts -/

/-- A `Char` codes a Unicode scalar: below the surrogates or above them. -/
theorem char_scalar (c : Char) :
    c.toNat < 0xd800 ∨ (0xdfff < c.toNat ∧ c.toNat < 0x110000) := by
  have h := c.valid
  unfold UInt32.isValidChar at h
  have e : c.toNat = c.val.toNat := rfl
  rcases h with h | ⟨h1, h2⟩
  · left; omega
  · right; omega

/-- `Char.ofNat` on a valid code gives exactly that code back. -/
theorem toNat_ofNat_valid (k : Nat) (h : Nat.isValidChar k) :
    (Char.ofNat k).toNat = k := by
  simp only [Char.ofNat, dif_pos h]
  simp [Char.ofNatAux, Char.toNat, UInt32.toNat, UInt32.ofNatTruncate]

/-- Two characters with distinct codes are distinct. -/
theorem char_ne_of_toNat_ne {c d : Char} (h : c.toNat ≠ d.toNat) : c ≠ d := by
  intro e; exact h (by rw [e])

/-- Digit characters have codes 48–57. -/
theorem isDigitCh_toNat {c : Char} (h : isDigitCh c = true) :
    48 ≤ c.toNat ∧ c.toNat ≤ 57 := by
  simp only [isDigitCh, Bool.and_eq_true, decide_eq_true_eq] at h
  obtain ⟨h1, h2⟩ := h
  rw [Char.le_def] at h1 h2
  have e1 : ('0' : Char).val.toNat = 48 := by decide
  have e2 : ('9' : Char).val.toNat = 57 := by decide
  rw [UInt32.le_def, BitVec.le_def] at h1 h2
  have e : c.toNat = c.val.toBitVec.toNat := rfl
  have e1 : ('0' : Char).val.toBitVec.toNat = 48 := by decide
  have e2 : ('9' : Char).val.toBitVec.toNat = 57 := by decide
  constructor <;> omega

/-- Codes 48–57 make `isDigitCh` true. -/
theorem isDigitCh_of_toNat {c : Char} (h1 : 48 ≤ c.toNat) (h2 : c.toNat ≤ 57) :
    isDigitCh c = true := by
  simp only [isDigitCh, Bool.and_eq_true, decide_eq_true_eq]
  have e : c.toNat = c.val.toBitVec.toNat := rfl
  have e1 : ('0' : Char).val.toBitVec.toNat = 48 := by decide
  have e2 : ('9' : Char).val.toBitVec.toNat = 57 := by decide
  constructor
  · rw [Char.le_def, UInt32.le_def, BitVec.le_def]
    omega
  · rw [Char.le_def, UInt32.le_def, BitVec.le_def]
    omega

end SkillEd

namespace SkillEd

/-! ## String escaping round-trip -/

/-- `hexDigitVal` inverts `lowHex` on one digit. -/
theorem hexDigitVal_lowHex (d : Nat) (h : d < 16) : hexDigitVal (lowHex d) = some d := by
  interval_cases d <;> decide

/-- `hexQuad` inverts the four digits `hexQuadOf` produces. -/
theorem hexQuad_hexQuadOf (n : Nat) (h : n < 0x10000) :
    hexQuad (lowHex (n / 4096 % 16)) (lowHex (n / 256 % 16))
      (lowHex (n / 16 % 16)) (lowHex (n % 16)) = some n := by
  have l1 := hexDigitVal_lowHex (n / 4096 % 16) (Nat.mod_lt _ (by omega))
  have l2 := hexDigitVal_lowHex (n / 256 % 16) (Nat.mod_lt _ (by omega))
  have l3 := hexDigitVal_lowHex (n / 16 % 16) (Nat.mod_lt _ (by omega))
  have l4 := hexDigitVal_lowHex (n % 16) (Nat.mod_lt _ (by omega))
  simp only [hexQuad, l1, l2, l3, l4, Option.bind_eq_bind, Option.some_bind]
  congr 1
  omega

set_option maxHeartbeats 2000000 in
/-- Parsing one escaped character pushes exactly that character. -/
theorem parseStrBody_escChar (c : Char) (acc rest : List Char) :
    parseStrBody acc (escChar c ++ rest) = parseStrBody (c :: acc) rest := by
  by_cases h1 : c = '\\'
  · subst h1; simp [escChar, parseStrBody, shortEscape]
  by_cases h2 : c = '"'
  · subst h2; simp [escChar, parseStrBody, shortEscape, h1]
  by_cases h3 : c = Char.ofNat 8
  · subst h3; simp [escChar, parseStrBody, shortEscape, h1, h2]
  by_cases h4 : c = Char.ofNat 12
  · subst h4; simp [escChar, parseStrBody, shortEscape, h1, h2, h3]
  by_cases h5 : c = '\n'
  · subst h5; simp [escChar, parseStrBody, shortEscape, h1, h2, h3, h4]
  by_cases h6 : c = Char.ofNat 13
  · subst h6; simp [escChar, parseStrBody, shortEscape, h1, h2, h3, h4, h5]
  by_cases h7 : c = '\t'
  · subst h7; simp [escChar, parseStrBody, shortEscape, h1, h2, h3, h4, h5, h6]
  by_cases h8 : c.toNat < 0x20
  · have hesc : escChar c = '\\' :: 'u' :: hexQuadOf c.toNat := by
      simp [escChar, h1, h2, h3, h4, h5, h6, h7, h8]
    have hq := hexQuad_hexQuadOf c.toNat (by omega)
    rw [hesc]
    show parseStrBody acc ('\\' :: 'u' :: lowHex (c.toNat / 4096 % 16) ::
      lowHex (c.toNat / 256 % 16) :: lowHex (c.toNat / 16 % 16) ::
      lowHex (c.toNat % 16) :: rest) = _
    rw [parseStrBody]
    simp only [hq]
    rw [if_neg (by omega), if_neg (by omega), Char.ofNat_toNat]
  by_cases h9 : c.toNat ≤ 0x7e
  · have hesc : escChar c = [c] := by
      simp [escChar, h1, h2, h3, h4, h5, h6, h7, h8, h9]
    rw [hesc]
    show parseStrBody acc (c :: rest) = _
    rw [parseStrBody.eq_def]
    simp [h1, h2, h8]
  · rcases char_scalar c with hv | ⟨hv1, hv2⟩
    · -- a BMP character outside ASCII (below the surrogate block)
      have h10 : c.toNat < 0x10000 := by omega
      have hesc : escChar c = '\\' :: 'u' :: hexQuadOf c.toNat := by
        simp [escChar, h1, h2, h3, h4, h5, h6, h7, h8, h9, h10]
      have hq := hexQuad_hexQuadOf c.toNat h10
      rw [hesc]
      show parseStrBody acc ('\\' :: 'u' :: lowHex (c.toNat / 4096 % 16) ::
        lowHex (c.toNat / 256 % 16) :: lowHex (c.toNat / 16 % 16) ::
        lowHex (c.toNat % 16) :: rest) = _
      rw [parseStrBody]
      simp only [hq]
      rw [if_neg (by omega), if_neg (by omega), Char.ofNat_toNat]
    · by_cases h10 : c.toNat < 0x10000
      · -- a BMP character above the surrogate block
        have hesc : escChar c = '\\' :: 'u' :: hexQuadOf c.toNat := by
          simp [escChar, h1, h2, h3, h4, h5, h6, h7, h8, h9, h10]
        have hq := hexQuad_hexQuadOf c.toNat h10
        rw [hesc]
        show parseStrBody acc ('\\' :: 'u' :: lowHex (c.toNat / 4096 % 16) ::
          lowHex (c.toNat / 256 % 16) :: lowHex (c.toNat / 16 % 16) ::
          lowHex (c.toNat % 16) :: rest) = _
        rw [parseStrBody]
        simp only [hq]
        rw [if_neg (by omega), if_neg (by omega), Char.ofNat_toNat]
      · -- beyond the BMP: a surrogate pair
        set m := c.toNat - 0x10000 with hm
        have hmlt : m < 0x100000 := by omega
        have hhi : 0xd800 + m / 0x400 < 0x10000 := by omega
        have hlo : 0xdc00 + m % 0x400 < 0x10000 := by
          have := Nat.mod_lt m (show 0 < 0x400 by omega)
          omega
        have hesc : escChar c =
            ('\\' :: 'u' :: hexQuadOf (0xd800 + m / 0x400))
              ++ ('\\' :: 'u' :: hexQuadOf (0xdc00 + m % 0x400)) := by
          simp [escChar, h1, h2, h3, h4, h5, h6, h7, h8, h9, h10, hm]
        have hq1 := hexQuad_hexQuadOf (0xd800 + m / 0x400) hhi
        have hq2 := hexQuad_hexQuadOf (0xdc00 + m % 0x400) hlo
        have hmod := Nat.mod_lt m (show 0 < 0x400 by omega)
        have hdivle : m / 0x400 ≤ 0x3ff := by omega
        rw [hesc]
        show parseStrBody acc ('\\' :: 'u' ::
          lowHex ((0xd800 + m / 0x400) / 4096 % 16) ::
          lowHex ((0xd800 + m / 0x400) / 256 % 16) ::
          lowHex ((0xd800 + m / 0x400) / 16 % 16) ::
          lowHex ((0xd800 + m / 0x400) % 16) :: ('\\' :: 'u' ::
          lowHex ((0xdc00 + m % 0x400) / 4096 % 16) ::
          lowHex ((0xdc00 + m % 0x400) / 256 % 16) ::
          lowHex ((0xdc00 + m % 0x400) / 16 % 16) ::
          lowHex ((0xdc00 + m % 0x400) % 16) :: rest)) = _
        rw [parseStrBody]
        simp only [hq1]
        rw [if_pos (by constructor <;> omega)]
        simp only [hq2]
        rw [if_pos (by constructor <;> omega)]
        have hcomb : 0x10000 + (0xd800 + m / 0x400 - 0xd800) * 0x400
            + (0xdc00 + m % 0x400 - 0xdc00) = c.toNat := by omega
        rw [hcomb, Char.ofNat_toNat]

/-- Parsing an escaped run stops exactly at the closing quote. -/
theorem parseStrBody_flatMap (s : List Char) : ∀ (acc rest : List Char),
    parseStrBody acc (s.flatMap escChar ++ '"' :: rest)
      = some (acc.reverse ++ s, rest) := by
  induction s with
  | nil => intro acc rest; simp [parseStrBody]
  | cons c t ih =>
      intro acc rest
      rw [List.flatMap_cons, List.append_assoc, parseStrBody_escChar, ih]
      simp

end SkillEd

namespace SkillEd

/-! ## Number rendering round-trip -/

/-- `natCharsF` ignores the exact fuel as long as it covers the number. -/
theorem natCharsF_congr : ∀ f g n : Nat, n ≤ f → n ≤ g → ∀ acc : List Char,
    natCharsF f n acc = natCharsF g n acc := by
  intro f
  induction f with
  | zero =>
      intro g n hf _ acc
      interval_cases n
      cases g <;> simp [natCharsF]
  | succ f ih =>
      intro g n hf hg acc
      cases g with
      | zero =>
          interval_cases n
          simp [natCharsF]
      | succ g =>
          by_cases h : n < 10
          · simp [natCharsF, h]
          · simp only [natCharsF, if_neg h]
            exact ih g (n / 10) (by omega) (by omega) _

/-- The recurrence the source writes, recovered for the fueled form. -/
theorem natChars_unfold (n : Nat) (acc : List Char) :
    natChars n acc = if n < 10 then Char.ofNat (48 + n) :: acc
      else natChars (n / 10) (Char.ofNat (48 + n % 10) :: acc) := by
  unfold natChars
  by_cases h : n < 10
  · cases n <;> simp [natCharsF, h]
  · obtain ⟨m, rfl⟩ : ∃ m, n = m + 1 := ⟨n - 1, by omega⟩
    simp only [natCharsF, if_neg h]
    exact natCharsF_congr m ((m + 1) / 10) ((m + 1) / 10) (by omega) (le_refl _) _

/-- The accumulator of `natChars` just rides along behind the digits. -/
theorem natChars_acc (n : Nat) : ∀ acc : List Char,
    natChars n acc = natChars n [] ++ acc := by
  induction n using Nat.strongRecOn with
  | _ n ih =>
    intro acc
    rw [natChars_unfold n acc, natChars_unfold n []]
    by_cases h : n < 10
    · simp [h]
    · simp only [if_neg h]
      rw [ih (n / 10) (by omega) (Char.ofNat (48 + n % 10) :: acc)]
      rw [ih (n / 10) (by omega) (Char.ofNat (48 + n % 10) :: [])]
      simp

/-- Unfolding `natChars` so the last digit comes off the tail. -/
theorem natChars_tail (n : Nat) :
    natChars n [] = (if n < 10 then [] else natChars (n / 10) [])
      ++ [Char.ofNat (48 + n % 10)] := by
  rw [natChars_unfold]
  by_cases h : n < 10
  · simp [h, Nat.mod_eq_of_lt h]
  · simp only [if_neg h]
    exact natChars_acc (n / 10) _

/-- Decimal digit characters are in range and the leading one is nonzero
for a positive number. -/
theorem natChars_head (n : Nat) :
    ∃ d t, natChars n [] = d :: t ∧ isDigitCh d = true ∧ (1 ≤ n → d ≠ '0') := by
  induction n using Nat.strongRecOn with
  | _ n ih =>
    by_cases h : n < 10
    · refine ⟨Char.ofNat (48 + n), [], by rw [natChars_unfold]; simp [h], ?_, ?_⟩
      · have hv : (Char.ofNat (48 + n)).toNat = 48 + n :=
          toNat_ofNat_valid _ (Or.inl (by omega))
        exact isDigitCh_of_toNat (by omega) (by omega)
      · intro hn
        have hv : (Char.ofNat (48 + n)).toNat = 48 + n :=
          toNat_ofNat_valid _ (Or.inl (by omega))
        apply char_ne_of_toNat_ne
        have : ('0' : Char).toNat = 48 := by decide
        omega
    · obtain ⟨d, t, he, hd, hz⟩ := ih (n / 10) (by omega)
      refine ⟨d, t ++ [Char.ofNat (48 + n % 10)], ?_, hd, fun _ => hz (by omega)⟩
      rw [natChars_tail, if_neg h, he]
      simp

/-- All characters `natChars` emits are digits. -/
theorem natChars_digits (n : Nat) : ∀ c ∈ natChars n [], isDigitCh c = true := by
  induction n using Nat.strongRecOn with
  | _ n ih =>
    intro c hc
    rw [natChars_tail] at hc
    rw [List.mem_append] at hc
    rcases hc with hc | hc
    · by_cases h : n < 10
      · simp [h] at hc
      · exact ih (n / 10) (by omega) c (by simpa [h] using hc)
    · rw [List.mem_singleton] at hc
      subst hc
      have hv : (Char.ofNat (48 + n % 10)).toNat = 48 + n % 10 :=
        toNat_ofNat_valid _ (Or.inl (by omega))
      have := Nat.mod_lt n (show 0 < 10 by omega)
      exact isDigitCh_of_toNat (by omega) (by omega)

/-- `digitsVal` recovers the number `natChars` rendered. -/
theorem digitsVal_natChars (n : Nat) : digitsVal (natChars n []) = n := by
  induction n using Nat.strongRecOn with
  | _ n ih =>
    rw [natChars_tail]
    by_cases h : n < 10
    · simp only [if_pos h, List.nil_append]
      have hv : (Char.ofNat (48 + n % 10)).toNat = 48 + n % 10 :=
        toNat_ofNat_valid _ (Or.inl (by omega))
      simp [digitsVal, hv]
      omega
    · simp only [if_neg h]
      have hv : (Char.ofNat (48 + n % 10)).toNat = 48 + n % 10 :=
        toNat_ofNat_valid _ (Or.inl (by omega))
      unfold digitsVal
      rw [List.foldl_append]
      have := ih (n / 10) (by omega)
      unfold digitsVal at this
      rw [this]
      simp [hv]
      omega

/-- `grabDigits` does not start on anything `startsNumTail` rejects. -/
theorem grabDigits_stop {rest : List Char} (h : startsNumTail rest = false) :
    grabDigits rest = ([], rest) := by
  match rest with
  | [] => rfl
  | c :: t =>
      simp only [startsNumTail, Bool.or_eq_false_iff] at h
      rw [grabDigits]
      simp [h.1.1.1]

/-- `grabDigits` peels off exactly a leading digit run. -/
theorem grabDigits_append (ds : List Char) (hds : ∀ c ∈ ds, isDigitCh c = true)
    (rest : List Char) (hrest : grabDigits rest = ([], rest)) :
    grabDigits (ds ++ rest) = (ds, rest) := by
  induction ds with
  | nil => simpa using hrest
  | cons c t ih =>
      have hc : isDigitCh c = true := hds c (by simp)
      have ht := ih (fun x hx => hds x (by simp [hx]))
      rw [List.cons_append, grabDigits]
      simp [hc, ht]

/-- A digit character is not a minus sign. -/
theorem digit_ne_minus {c : Char} (h : isDigitCh c = true) : c ≠ '-' := by
  have := isDigitCh_toNat h
  apply char_ne_of_toNat_ne
  have : ('-' : Char).toNat = 45 := by decide
  omega

/-- The integer codec round-trip: `parseNumber` inverts `intChars` when the
remainder cannot extend the number. -/
theorem parseNumber_intChars (i : Int) (rest : List Char)
    (hr : startsNumTail rest = false) :
    parseNumber (intChars i ++ rest) = some (i, rest) := by
  have hgrab : grabDigits (natChars i.natAbs [] ++ rest) = (natChars i.natAbs [], rest) :=
    grabDigits_append _ (natChars_digits _) _ (grabDigits_stop hr)
  obtain ⟨d, t, he, hd, hz⟩ := natChars_head i.natAbs
  by_cases hneg : i < 0
  · have harg : intChars i ++ rest = '-' :: (natChars i.natAbs [] ++ rest) := by
      simp [intChars, hneg]
    rw [harg, parseNumber]
    have hgrab2 : grabDigits (d :: (t ++ rest)) = (d :: t, rest) := by
      rw [show d :: (t ++ rest) = (d :: t) ++ rest by simp, ← he]
      exact hgrab
    rw [he]
    simp only [List.cons_append, hgrab2]
    have hd0 : ¬(d = '0' ∧ t ≠ []) := by
      intro ⟨hd0, _⟩
      exact hz (by omega) hd0
    rw [if_neg hd0, if_neg (by simp [hr]), ← he, digitsVal_natChars]
    simp only [Option.map_some', Option.some.injEq, Prod.mk.injEq]
    exact ⟨by omega, trivial⟩
  · have harg : intChars i ++ rest = natChars i.natAbs [] ++ rest := by
      simp [intChars, hneg]
    rw [harg, he, List.cons_append, parseNumber.eq_def]
    have hdm := digit_ne_minus hd
    simp only []
    split
    · rename_i heq
      injection heq with ha _
      exact absurd ha hdm
    · rename_i heq
      have hgrab2 : grabDigits (d :: (t ++ rest)) = (d :: t, rest) := by
        rw [show d :: (t ++ rest) = (d :: t) ++ rest by simp, ← he]
        exact hgrab
      simp only [hgrab2]
      have hd0 : ¬(d = '0' ∧ t ≠ []) := by
        rintro ⟨hd0, hne⟩
        rcases Nat.eq_zero_or_pos i.natAbs with h0 | h0
        · rw [h0] at he
          rw [natChars_tail] at he
          simp at he
          obtain ⟨_, ht⟩ := he
          exact hne ht
        · exact hz h0 hd0
      rw [if_neg hd0, if_neg (by simp [hr]), ← he, digitsVal_natChars]
      simp only [Option.map_some', Option.some.injEq, Prod.mk.injEq]
      exact ⟨by omega, trivial⟩

end SkillEd

namespace SkillEd

/-! ## Dict semantics: repeated assignment keeps keys distinct, and is the
identity on entry lists whose keys already are -/

/-- `contains` is `false` exactly on non-members. -/
theorem contains_false_iff (xs : List (List Char)) (a : List Char) :
    xs.contains a = false ↔ a ∉ xs := by
  constructor
  · intro h hm
    have : xs.contains a = true := by simp [hm]
    rw [this] at h
    cases h
  · intro h
    simp [h]

/-- `keysDistinct` unfolded on an arbitrary head entry. -/
theorem keysDistinct_cons (x : List Char × Json) (xs : List (List Char × Json)) :
    keysDistinct (x :: xs) = (!(keysOf xs).contains x.1 && keysDistinct xs) := by
  obtain ⟨k, v⟩ := x
  rfl

/-- Keys of an appended entry list. -/
theorem keysOf_append (xs ys : List (List Char × Json)) :
    keysOf (xs ++ ys) = keysOf xs ++ keysOf ys := by
  simp [keysOf]

/-- The per-entry assignment step of `pyDictSet` keeps each entry's key. -/
theorem setAt_fst (k : List Char) (v : Json) (p : List Char × Json) :
    ((fun p : List Char × Json => if p.1 = k then (k, v) else p) p).1 = p.1 := by
  by_cases h : p.1 = k
  · simp [h]
  · simp [h]

/-- `pyDictSet` only ever touches the value at `k`, never another key. -/
theorem keysOf_map_setAt (ms : List (List Char × Json)) (k : List Char) (v : Json) :
    keysOf (ms.map (fun p => if p.1 = k then (k, v) else p)) = keysOf ms := by
  unfold keysOf
  rw [List.map_map]
  exact List.map_congr_left (fun p _ => setAt_fst k v p)

/-- Appending a fresh key preserves key distinctness. -/
theorem keysDistinct_snoc (ms : List (List Char × Json)) (k : List Char) (v : Json)
    (h : keysDistinct ms = true) (hk : (keysOf ms).contains k = false) :
    keysDistinct (ms ++ [(k, v)]) = true := by
  induction ms with
  | nil => rfl
  | cons a t ih =>
      rw [keysDistinct_cons, Bool.and_eq_true, Bool.not_eq_true'] at h
      rw [contains_false_iff] at hk
      have hk1 : a.1 ≠ k := fun e => hk (by rw [← e]; simp [keysOf])
      have hk2 : k ∉ keysOf t := fun hm => hk (by
        rw [keysOf, List.map_cons]
        exact List.mem_cons.mpr (Or.inr hm))
      rw [List.cons_append, keysDistinct_cons, Bool.and_eq_true, Bool.not_eq_true']
      constructor
      · rw [contains_false_iff, keysOf_append]
        simp only [List.mem_append, not_or]
        refine ⟨(contains_false_iff _ _).mp h.1, ?_⟩
        simp only [keysOf, List.map_cons, List.map_nil, List.mem_singleton]
        exact fun e => hk1 e
      · exact ih h.2 ((contains_false_iff _ _).mpr hk2)

/-- Key distinctness only looks at the keys. -/
theorem keysDistinct_map_setAt (ms : List (List Char × Json)) (k : List Char) (v : Json) :
    keysDistinct (ms.map (fun p => if p.1 = k then (k, v) else p)) = keysDistinct ms := by
  induction ms with
  | nil => rfl
  | cons a t ih =>
      rw [List.map_cons, keysDistinct_cons, keysDistinct_cons, keysOf_map_setAt,
        setAt_fst, ih]

/-- One dict assignment preserves key distinctness. -/
theorem keysDistinct_pyDictSet (ms : List (List Char × Json)) (k : List Char) (v : Json)
    (h : keysDistinct ms = true) : keysDistinct (pyDictSet ms k v) = true := by
  unfold pyDictSet
  by_cases hc : (keysOf ms).contains k = true
  · rw [if_pos hc, keysDistinct_map_setAt]; exact h
  · rw [if_neg hc]
    exact keysDistinct_snoc ms k v h (by simpa using hc)

/-- Every dict built by repeated assignment has distinct keys. -/
theorem keysDistinct_pyDictOf (pairs : List (List Char × Json)) :
    keysDistinct (pyDictOf pairs) = true := by
  suffices h : ∀ (ps : List (List Char × Json)) (acc : List (List Char × Json)),
      keysDistinct acc = true →
      keysDistinct (ps.foldl (fun a p => pyDictSet a p.1 p.2) acc) = true by
    exact h pairs [] rfl
  intro ps
  induction ps with
  | nil => intro acc h; simpa using h
  | cons p t ih =>
      intro acc h
      exact ih _ (keysDistinct_pyDictSet acc p.1 p.2 h)

/-- Entries of the built dict all come from the assigned pairs. -/
theorem mem_pyDictSet {x : List Char × Json} {ms : List (List Char × Json)}
    {k : List Char} {v : Json} (h : x ∈ pyDictSet ms k v) : x ∈ ms ∨ x = (k, v) := by
  unfold pyDictSet at h
  by_cases hc : (keysOf ms).contains k = true
  · rw [if_pos hc] at h
    rw [List.mem_map] at h
    obtain ⟨y, hy, he⟩ := h
    by_cases hk : y.1 = k
    · right; rw [if_pos hk] at he; exact he.symm
    · left; rw [if_neg hk] at he; rw [← he]; exact hy
  · rw [if_neg hc] at h
    rw [List.mem_append] at h
    rcases h with h | h
    · left; exact h
    · right; simpa using h

/-- `pyDictOf` never invents entries. -/
theorem mem_pyDictOf {x : List Char × Json} {pairs : List (List Char × Json)}
    (h : x ∈ pyDictOf pairs) : x ∈ pairs := by
  suffices hs : ∀ (ps acc : List (List Char × Json)),
      x ∈ ps.foldl (fun a p => pyDictSet a p.1 p.2) acc → x ∈ acc ∨ x ∈ ps by
    rcases hs pairs [] h with h' | h'
    · exact absurd h' (by simp)
    · exact h'
  intro ps
  induction ps with
  | nil => intro acc h'; left; simpa using h'
  | cons p t ih =>
      intro acc h'
      rcases ih _ h' with h'' | h'' 
      · rcases mem_pyDictSet h'' with h3 | h3
        · left; exact h3
        · right; rw [h3]; simp
      · right; exact List.mem_cons.mpr (Or.inr h'')

/-- A fresh key is not among an earlier prefix of distinct keys. -/
theorem not_contains_of_keysDistinct_middle (acc t : List (List Char × Json))
    (k : List Char) (v : Json) (h : keysDistinct (acc ++ (k, v) :: t) = true) :
    (keysOf acc).contains k = false := by
  induction acc with
  | nil => rfl
  | cons a r ih =>
      rw [List.cons_append, keysDistinct_cons, Bool.and_eq_true, Bool.not_eq_true'] at h
      obtain ⟨h1, h2⟩ := h
      rw [contains_false_iff] at h1 ⊢
      have hkmem : k ∈ keysOf (r ++ (k, v) :: t) := by simp [keysOf]
      obtain ⟨a1, a2⟩ := a
      simp only [keysOf, List.map_cons, List.mem_cons, not_or]
      refine ⟨fun e => h1 (e ▸ hkmem), ?_⟩
      have := ih h2
      rw [contains_false_iff] at this
      exact this

/-- Rebuilding an entry list with already-distinct keys by dict assignment
reproduces it unchanged. -/
theorem pyDictOf_self (ms : List (List Char × Json)) (h : keysDistinct ms = true) :
    pyDictOf ms = ms := by
  suffices hs : ∀ (ps acc : List (List Char × Json)),
      keysDistinct (acc ++ ps) = true →
      ps.foldl (fun a p => pyDictSet a p.1 p.2) acc = acc ++ ps by
    simpa using hs ms [] (by simpa using h)
  intro ps
  induction ps with
  | nil => intro acc h'; simp
  | cons p t ih =>
      intro acc h'
      obtain ⟨k, v⟩ := p
      have hfresh := not_contains_of_keysDistinct_middle acc t k v h'
      have hset : pyDictSet acc k v = acc ++ [(k, v)] := by
        unfold pyDictSet
        rw [if_neg (by rw [hfresh]; simp)]
      simp only [List.foldl_cons, hset]
      have := ih (acc ++ [(k, v)]) (by simpa using h')
      simpa using this

end SkillEd

namespace SkillEd

/-! ## Heads of rendered output and whitespace handling -/

/-- `dropWs` leaves a list alone when its head is not whitespace. -/
theorem dropWs_self {c : Char} {t : List Char} (h : isJsonWs c = false) :
    dropWs (c :: t) = c :: t := by
  rw [dropWs, h]
  simp

/-- `dropWs` is idempotent. -/
theorem dropWs_idem (cs : List Char) : dropWs (dropWs cs) = dropWs cs := by
  induction cs with
  | nil => rfl
  | cons c t ih =>
      by_cases h : isJsonWs c = true
      · rw [show dropWs (c :: t) = dropWs t from by rw [dropWs, if_pos h]]
        exact ih
      · have hf : isJsonWs c = false := by simpa using h
        rw [dropWs_self hf]
        exact dropWs_self hf

/-- A leading blank is transparent to `dropWs`. -/
theorem dropWs_blank (t : List Char) : dropWs (' ' :: t) = dropWs t := by
  rw [dropWs]
  simp [isJsonWs]

/-- A digit or minus sign begins no keyword, string, bracket or whitespace. -/
theorem numHead_facts {c : Char} (h : c = '-' ∨ isDigitCh c = true) :
    c ≠ 'n' ∧ c ≠ 't' ∧ c ≠ 'f' ∧ c ≠ '"' ∧ c ≠ '[' ∧ c ≠ '\x7b' ∧ c ≠ ']' ∧ c ≠ '\x7d'
      ∧ c ≠ ',' ∧ isJsonWs c = false ∧ (c = '-' || isDigitCh c) = true := by
  rcases h with h | h
  · subst h
    refine ⟨by decide, by decide, by decide, by decide, by decide, by decide,
      by decide, by decide, by decide, by decide, by decide⟩
  · obtain ⟨h1, h2⟩ := isDigitCh_toNat h
    have v1 : (' ' : Char).toNat = 32 := rfl
    have v2 : ('\t' : Char).toNat = 9 := rfl
    have v3 : ('\n' : Char).toNat = 10 := rfl
    have v4 : ('\x0d' : Char).toNat = 13 := rfl
    have v5 : ('n' : Char).toNat = 110 := rfl
    have v6 : ('t' : Char).toNat = 116 := rfl
    have v7 : ('f' : Char).toNat = 102 := rfl
    have v8 : ('"' : Char).toNat = 34 := rfl
    have v9 : ('[' : Char).toNat = 91 := rfl
    have v10 : ('\x7b' : Char).toNat = 123 := rfl
    have v11 : (']' : Char).toNat = 93 := rfl
    have v12 : ('\x7d' : Char).toNat = 125 := rfl
    have v13 : (',' : Char).toNat = 44 := rfl
    have hws : isJsonWs c = false := by
      have n1 : c ≠ ' ' := char_ne_of_toNat_ne (by omega)
      have n2 : c ≠ '\t' := char_ne_of_toNat_ne (by omega)
      have n3 : c ≠ '\n' := char_ne_of_toNat_ne (by omega)
      have n4 : c ≠ '\x0d' := char_ne_of_toNat_ne (by omega)
      simp [isJsonWs, n1, n2, n3, n4]
    exact ⟨char_ne_of_toNat_ne (by omega), char_ne_of_toNat_ne (by omega),
      char_ne_of_toNat_ne (by omega), char_ne_of_toNat_ne (by omega),
      char_ne_of_toNat_ne (by omega), char_ne_of_toNat_ne (by omega),
      char_ne_of_toNat_ne (by omega), char_ne_of_toNat_ne (by omega),
      char_ne_of_toNat_ne (by omega), hws, by simp [h]⟩

/-- The first character of a rendered integer is a minus sign or a digit. -/
theorem intChars_head (i : Int) :
    ∃ d t, intChars i = d :: t ∧ (d = '-' ∨ isDigitCh d = true) := by
  by_cases h : i < 0
  · exact ⟨'-', natChars i.natAbs [], by simp [intChars, h], Or.inl rfl⟩
  · obtain ⟨d, t, he, hd, _⟩ := natChars_head i.natAbs
    exact ⟨d, t, by simp [intChars, h, he], Or.inr hd⟩

/-- Every rendered value begins with a character that is not whitespace and
closes no container. -/
theorem renderJ_head (v : Json) :
    ∃ c t, renderJ v = c :: t ∧ isJsonWs c = false ∧ c ≠ ']' ∧ c ≠ '\x7d' := by
  cases v with
  | num i =>
      obtain ⟨d, t, he, hd⟩ := intChars_head i
      obtain ⟨_, _, _, _, _, _, h7, h8, _, h10, _⟩ := numHead_facts hd
      exact ⟨d, t, by simp [renderJ, he], h10, h7, h8⟩
  | bool b => cases b <;> exact ⟨_, _, rfl, by decide⟩
  | null => exact ⟨'n', _, rfl, by decide⟩
  | str s => exact ⟨'"', _, rfl, by decide⟩
  | arr items => cases items <;> exact ⟨'[', _, rfl, by decide⟩
  | obj entries => cases entries <;> exact ⟨'\x7b', _, rfl, by decide⟩

/-- `dropWs` leaves rendered output alone. -/
theorem dropWs_renderJ (v : Json) (x : List Char) :
    dropWs (renderJ v ++ x) = renderJ v ++ x := by
  obtain ⟨c, t, he, hws, _, _⟩ := renderJ_head v
  rw [he, List.cons_append]
  exact dropWs_self hws

end SkillEd

namespace SkillEd

/-! ## The codec round-trip -/

/-- A nonempty item list renders as its first value and the joined rest. -/
theorem renderItemsJ_cons_eq (e : Json) (es : List Json) :
    renderItemsJ (e :: es)
      = renderJ e ++ (match es with
        | [] => []
        | x :: xs => ',' :: ' ' :: renderItemsJ (x :: xs)) := by
  cases es with
  | nil => simp [renderItemsJ]
  | cons x xs => rfl

/-- A nonempty entry list renders as its first member and the joined rest. -/
theorem renderEntriesJ_cons_eq (k : List Char) (v : Json)
    (es : List (List Char × Json)) :
    renderEntriesJ ((k, v) :: es)
      = quoteStr k ++ ':' :: ' ' :: renderJ v ++ (match es with
        | [] => []
        | x :: xs => ',' :: ' ' :: renderEntriesJ (x :: xs)) := by
  cases es with
  | nil => simp [renderEntriesJ]
  | cons x xs => rfl

/-- A value whose input starts with a sign or digit parses as a number. -/
theorem parseValue_headNum (f : Nat) (c : Char) (t : List Char)
    (h : c = '-' ∨ isDigitCh c = true) :
    parseValue (f + 1) (c :: t)
      = (parseNumber (c :: t)).map (fun p => (Json.num p.1, p.2)) := by
  obtain ⟨n1, n2, n3, n4, n5, n6, _, _, _, hws, hg⟩ := numHead_facts h
  rw [parseValue, dropWs_self hws]
  simp [n1, n2, n3, n4, n5, n6, hg]

/-- The number case of the round-trip. -/
theorem parseValue_num (i : Int) (f : Nat) (rest : List Char)
    (hr : startsNumTail rest = false) :
    parseValue (f + 1) (intChars i ++ rest) = some (.num i, rest) := by
  obtain ⟨d, t, he, hd⟩ := intChars_head i
  have harg : intChars i ++ rest = d :: (t ++ rest) := by rw [he]; rfl
  rw [harg, parseValue_headNum f d _ hd, ← harg, parseNumber_intChars i rest hr]
  rfl

/-- The parser's array branch wraps `parseItems` when the item list is
nonempty (its head closes no bracket). -/
theorem parseValue_arrCase (e : Json) (es : List Json) (f : Nat) (rest : List Char) :
    parseValue (f + 1) ('[' :: (renderItemsJ (e :: es) ++ ']' :: rest))
      = (parseItems f (renderItemsJ (e :: es) ++ ']' :: rest)).map
          (fun p => (Json.arr p.1, p.2)) := by
  obtain ⟨c, t, he, hws, hbr, _⟩ := renderJ_head e
  have hshape : renderItemsJ (e :: es) ++ ']' :: rest
      = c :: (t ++ (match es with
          | [] => []
          | x :: xs => ',' :: ' ' :: renderItemsJ (x :: xs)) ++ ']' :: rest) := by
    rw [renderItemsJ_cons_eq, he]
    simp
  rw [parseValue, dropWs_self (by decide)]
  simp only []
  rw [hshape, dropWs_self hws]
  simp [hbr]

/-- The parser's object branch wraps `parseEntries` when the entry list is
nonempty (its head is a key's opening quote). -/
theorem parseValue_objCase (k : List Char) (v : Json) (es : List (List Char × Json))
    (f : Nat) (rest : List Char) :
    parseValue (f + 1) ('\x7b' :: (renderEntriesJ ((k, v) :: es) ++ '\x7d' :: rest))
      = (parseEntries f (renderEntriesJ ((k, v) :: es) ++ '\x7d' :: rest)).map
          (fun p => (Json.obj (pyDictOf p.1), p.2)) := by
  have hshape : renderEntriesJ ((k, v) :: es) ++ '\x7d' :: rest
      = '"' :: ((k.flatMap escChar ++ ['"']) ++ ':' :: ' ' :: renderJ v ++ (match es with
          | [] => []
          | x :: xs => ',' :: ' ' :: renderEntriesJ (x :: xs)) ++ '\x7d' :: rest) := by
    rw [renderEntriesJ_cons_eq]
    simp [quoteStr]
  rw [parseValue, dropWs_self (by decide)]
  simp only []
  rw [hshape, dropWs_self (by decide)]
  simp

end SkillEd

namespace SkillEd

/-- A closing bracket cannot extend a number. -/
theorem snt_rbrack (x : List Char) : startsNumTail (']' :: x) = false := rfl

/-- A closing brace cannot extend a number. -/
theorem snt_rbrace (x : List Char) : startsNumTail ('\x7d' :: x) = false := rfl

/-- A comma cannot extend a number. -/
theorem snt_comma (x : List Char) : startsNumTail (',' :: x) = false := rfl

/-- A leading blank is transparent to the value parser. -/
theorem parseValue_blank (f : Nat) (x : List Char) :
    parseValue f (' ' :: x) = parseValue f x := by
  cases f with
  | zero => rfl
  | succ g => rw [parseValue, parseValue, dropWs_blank]

/-- A leading blank is transparent to the item parser. -/
theorem parseItems_blank (f : Nat) (x : List Char) :
    parseItems f (' ' :: x) = parseItems f x := by
  cases f with
  | zero => rfl
  | succ g => rw [parseItems, parseItems, parseValue_blank]

/-- A leading blank is transparent to the entry parser. -/
theorem parseEntries_blank (f : Nat) (x : List Char) :
    parseEntries f (' ' :: x) = parseEntries f x := by
  cases f with
  | zero => rfl
  | succ g => rw [parseEntries, parseEntries, dropWs_blank]

mutual

/-- Round-trip, values: parsing a rendered well-formed value recovers it. -/
theorem rtVal : ∀ (v : Json) (fuel : Nat) (rest : List Char),
    wfJ v = true → (renderJ v).length < fuel → startsNumTail rest = false →
    parseValue fuel (renderJ v ++ rest) = some (v, rest)
  | .null, fuel, rest, _, hf, _ => by
      cases fuel with
      | zero => exact absurd hf (Nat.not_lt_zero _)
      | succ f =>
          rw [show renderJ Json.null ++ rest = 'n' :: 'u' :: 'l' :: 'l' :: rest from rfl,
            parseValue, dropWs_self (by decide)]
          rfl
  | .bool true, fuel, rest, _, hf, _ => by
      cases fuel with
      | zero => exact absurd hf (Nat.not_lt_zero _)
      | succ f =>
          rw [show renderJ (Json.bool true) ++ rest = 't' :: 'r' :: 'u' :: 'e' :: rest from rfl,
            parseValue, dropWs_self (by decide)]
          rfl
  | .bool false, fuel, rest, _, hf, _ => by
      cases fuel with
      | zero => exact absurd hf (Nat.not_lt_zero _)
      | succ f =>
          rw [show renderJ (Json.bool false) ++ rest
              = 'f' :: 'a' :: 'l' :: 's' :: 'e' :: rest from rfl,
            parseValue, dropWs_self (by decide)]
          rfl
  | .num i, fuel, rest, _, hf, hr => by
      cases fuel with
      | zero => exact absurd hf (Nat.not_lt_zero _)
      | succ f => exact parseValue_num i f rest hr
  | .str s, fuel, rest, _, hf, _ => by
      cases fuel with
      | zero => exact absurd hf (Nat.not_lt_zero _)
      | succ f =>
          rw [show renderJ (Json.str s) ++ rest
              = '"' :: (s.flatMap escChar ++ '"' :: rest) from by simp [renderJ, quoteStr],
            parseValue, dropWs_self (by decide)]
          show (parseStrBody [] (s.flatMap escChar ++ '"' :: rest)).map
              (fun p => (Json.str p.1, p.2)) = _
          rw [parseStrBody_flatMap]
          simp
  | .arr [], fuel, rest, _, hf, _ => by
      cases fuel with
      | zero => exact absurd hf (Nat.not_lt_zero _)
      | succ f =>
          rw [show renderJ (Json.arr []) ++ rest = '[' :: ']' :: rest from rfl,
            parseValue, dropWs_self (by decide)]
          show (match dropWs (']' :: rest) with
            | ']' :: r2 => some (Json.arr [], r2)
            | r2 => (parseItems f r2).map (fun p : List Json × List Char => (Json.arr p.1, p.2))) = _
          rw [dropWs_self (by decide)]
          rfl
  | .arr (e :: es), fuel, rest, hwf, hf, _ => by
      cases fuel with
      | zero => exact absurd hf (Nat.not_lt_zero _)
      | succ f =>
          have hwf' : wfItemsJ (e :: es) = true := hwf
          have hfi : (renderItemsJ (e :: es)).length + 1 < f := by
            rw [show renderJ (Json.arr (e :: es))
                = '[' :: (renderItemsJ (e :: es) ++ [']']) from rfl] at hf
            simp only [List.length_cons, List.length_append, List.length_singleton] at hf
            omega
          rw [show renderJ (Json.arr (e :: es)) ++ rest
              = '[' :: (renderItemsJ (e :: es) ++ ']' :: rest) from by simp [renderJ],
            parseValue_arrCase, rtItems e es f rest hwf' hfi]
          rfl
  | .obj [], fuel, rest, _, hf, _ => by
      cases fuel with
      | zero => exact absurd hf (Nat.not_lt_zero _)
      | succ f =>
          rw [show renderJ (Json.obj []) ++ rest = '\x7b' :: '\x7d' :: rest from rfl,
            parseValue, dropWs_self (by decide)]
          show (match dropWs ('\x7d' :: rest) with
            | '\x7d' :: r2 => some (Json.obj [], r2)
            | r2 => (parseEntries f r2).map (fun p : List (List Char × Json) × List Char => (Json.obj (pyDictOf p.1), p.2))) = _
          rw [dropWs_self (by decide)]
          rfl
  | .obj ((k, v) :: es), fuel, rest, hwf, hf, _ => by
      cases fuel with
      | zero => exact absurd hf (Nat.not_lt_zero _)
      | succ f =>
          have hks : keysDistinct ((k, v) :: es) = true := by
            have : wfJ (Json.obj ((k, v) :: es))
                = (keysDistinct ((k, v) :: es) && wfEntriesJ ((k, v) :: es)) := rfl
            rw [this, Bool.and_eq_true] at hwf
            exact hwf.1
          have hwe : wfEntriesJ ((k, v) :: es) = true := by
            have : wfJ (Json.obj ((k, v) :: es))
                = (keysDistinct ((k, v) :: es) && wfEntriesJ ((k, v) :: es)) := rfl
            rw [this, Bool.and_eq_true] at hwf
            exact hwf.2
          have hfe : (renderEntriesJ ((k, v) :: es)).length + 1 < f := by
            rw [show renderJ (Json.obj ((k, v) :: es))
                = '\x7b' :: (renderEntriesJ ((k, v) :: es) ++ ['\x7d']) from rfl] at hf
            simp only [List.length_cons, List.length_append, List.length_singleton] at hf
            omega
          rw [show renderJ (Json.obj ((k, v) :: es)) ++ rest
              = '\x7b' :: (renderEntriesJ ((k, v) :: es) ++ '\x7d' :: rest) from by
                simp [renderJ],
            parseValue_objCase, rtEntries (k, v) es f rest hwe hfe]
          simp [pyDictOf_self _ hks]
  termination_by v _ _ _ _ _ => sizeOf v

/-- Round-trip, item lists: parsing a rendered item run recovers it. -/
theorem rtItems : ∀ (e : Json) (es : List Json) (fuel : Nat) (rest : List Char),
    wfItemsJ (e :: es) = true → (renderItemsJ (e :: es)).length + 1 < fuel →
    parseItems fuel (renderItemsJ (e :: es) ++ ']' :: rest) = some (e :: es, rest)
  | e, [], fuel, rest, hwf, hf => by
      cases fuel with
      | zero => exact absurd hf (Nat.not_lt_zero _)
      | succ f =>
          have hwe : wfJ e = true := by
            rw [show wfItemsJ [e] = (wfJ e && wfItemsJ []) from rfl, Bool.and_eq_true] at hwf
            exact hwf.1
          have hfe : (renderJ e).length < f := by
            rw [show renderItemsJ [e] = renderJ e from rfl] at hf
            omega
          rw [show renderItemsJ [e] = renderJ e from rfl, parseItems,
            rtVal e f (']' :: rest) hwe hfe (snt_rbrack rest)]
          show (match dropWs (']' :: rest) with
            | ',' :: r2 => (parseItems f r2).map (fun p : List Json × List Char => (e :: p.1, p.2))
            | ']' :: r2 => some ([e], r2)
            | _ => none) = _
          rw [dropWs_self (by decide)]
          rfl
  | e, x :: xs, fuel, rest, hwf, hf => by
      cases fuel with
      | zero => exact absurd hf (Nat.not_lt_zero _)
      | succ f =>
          have hwe : wfJ e = true := by
            rw [show wfItemsJ (e :: x :: xs) = (wfJ e && wfItemsJ (x :: xs)) from rfl,
              Bool.and_eq_true] at hwf
            exact hwf.1
          have hwt : wfItemsJ (x :: xs) = true := by
            rw [show wfItemsJ (e :: x :: xs) = (wfJ e && wfItemsJ (x :: xs)) from rfl,
              Bool.and_eq_true] at hwf
            exact hwf.2
          have hlen : (renderItemsJ (e :: x :: xs)).length
              = (renderJ e).length + 2 + (renderItemsJ (x :: xs)).length := by
            rw [show renderItemsJ (e :: x :: xs)
                = renderJ e ++ ',' :: ' ' :: renderItemsJ (x :: xs) from rfl]
            simp
            omega
          have hfe : (renderJ e).length < f := by omega
          have hft : (renderItemsJ (x :: xs)).length + 1 < f := by omega
          have harg : renderItemsJ (e :: x :: xs) ++ ']' :: rest
              = renderJ e ++ ',' :: ' ' :: (renderItemsJ (x :: xs) ++ ']' :: rest) := by
            rw [show renderItemsJ (e :: x :: xs)
                = renderJ e ++ ',' :: ' ' :: renderItemsJ (x :: xs) from rfl]
            simp
          rw [harg, parseItems,
            rtVal e f (',' :: ' ' :: (renderItemsJ (x :: xs) ++ ']' :: rest)) hwe hfe
              (snt_comma _)]
          show (match dropWs (',' :: ' ' :: (renderItemsJ (x :: xs) ++ ']' :: rest)) with
            | ',' :: r2 => (parseItems f r2).map (fun p : List Json × List Char => (e :: p.1, p.2))
            | ']' :: r2 => some ([e], r2)
            | _ => none) = _
          rw [dropWs_self (by decide)]
          show (parseItems f (' ' :: (renderItemsJ (x :: xs) ++ ']' :: rest))).map
            (fun p : List Json × List Char => (e :: p.1, p.2)) = _
          rw [parseItems_blank, rtItems x xs f rest hwt hft]
          rfl
  termination_by e es _ _ _ _ => sizeOf e + sizeOf es

/-- Round-trip, entry lists: parsing a rendered member run recovers it. -/
theorem rtEntries : ∀ (kv : List Char × Json) (es : List (List Char × Json))
    (fuel : Nat) (rest : List Char),
    wfEntriesJ (kv :: es) = true → (renderEntriesJ (kv :: es)).length + 1 < fuel →
    parseEntries fuel (renderEntriesJ (kv :: es) ++ '\x7d' :: rest)
      = some (kv :: es, rest)
  | (k, v), [], fuel, rest, hwf, hf => by
      cases fuel with
      | zero => exact absurd hf (Nat.not_lt_zero _)
      | succ f =>
          have hwv : wfJ v = true := by
            rw [show wfEntriesJ [(k, v)] = (wfJ v && wfEntriesJ []) from rfl,
              Bool.and_eq_true] at hwf
            exact hwf.1
          have hlen : (renderEntriesJ [(k, v)]).length
              = (quoteStr k).length + 2 + (renderJ v).length := by
            rw [show renderEntriesJ [(k, v)] = quoteStr k ++ ':' :: ' ' :: renderJ v from rfl]
            simp
            omega
          have hfv : (renderJ v).length < f := by omega
          have harg : renderEntriesJ [(k, v)] ++ '\x7d' :: rest
              = '"' :: (k.flatMap escChar
                  ++ '"' :: (':' :: ' ' :: (renderJ v ++ '\x7d' :: rest))) := by
            rw [show renderEntriesJ [(k, v)] = quoteStr k ++ ':' :: ' ' :: renderJ v from rfl,
              quoteStr]
            simp
          rw [harg, parseEntries, dropWs_self (by decide)]
          show (match parseStrBody [] (k.flatMap escChar
              ++ '"' :: (':' :: ' ' :: (renderJ v ++ '\x7d' :: rest))) with
            | none => none
            | some (key, r1) =>
                match dropWs r1 with
                | ':' :: r2 =>
                    match parseValue f r2 with
                    | none => none
                    | some (w, r3) =>
                        match dropWs r3 with
                        | ',' :: r4 => (parseEntries f r4).map (fun p : List (List Char × Json) × List Char => ((key, w) :: p.1, p.2))
                        | '\x7d' :: r4 => some ([(key, w)], r4)
                        | _ => none
                | _ => none) = _
          rw [parseStrBody_flatMap]
          show (match dropWs (':' :: ' ' :: (renderJ v ++ '\x7d' :: rest)) with
            | ':' :: r2 =>
                match parseValue f r2 with
                | none => none
                | some (w, r3) =>
                    match dropWs r3 with
                    | ',' :: r4 => (parseEntries f r4).map (fun p : List (List Char × Json) × List Char => ((k, w) :: p.1, p.2))
                    | '\x7d' :: r4 => some ([(k, w)], r4)
                    | _ => none
            | _ => none) = _
          rw [dropWs_self (by decide)]
          show (match parseValue f (' ' :: (renderJ v ++ '\x7d' :: rest)) with
            | none => none
            | some (w, r3) =>
                match dropWs r3 with
                | ',' :: r4 => (parseEntries f r4).map (fun p : List (List Char × Json) × List Char => ((k, w) :: p.1, p.2))
                | '\x7d' :: r4 => some ([(k, w)], r4)
                | _ => none) = _
          rw [parseValue_blank, rtVal v f ('\x7d' :: rest) hwv hfv (snt_rbrace rest)]
          show (match dropWs ('\x7d' :: rest) with
            | ',' :: r4 => (parseEntries f r4).map (fun p : List (List Char × Json) × List Char => ((k, v) :: p.1, p.2))
            | '\x7d' :: r4 => some ([(k, v)], r4)
            | _ => none) = _
          rw [dropWs_self (by decide)]
          rfl
  | (k, v), x :: xs, fuel, rest, hwf, hf => by
      cases fuel with
      | zero => exact absurd hf (Nat.not_lt_zero _)
      | succ f =>
          have hwv : wfJ v = true := by
            rw [show wfEntriesJ ((k, v) :: x :: xs) = (wfJ v && wfEntriesJ (x :: xs)) from rfl,
              Bool.and_eq_true] at hwf
            exact hwf.1
          have hwt : wfEntriesJ (x :: xs) = true := by
            rw [show wfEntriesJ ((k, v) :: x :: xs) = (wfJ v && wfEntriesJ (x :: xs)) from rfl,
              Bool.and_eq_true] at hwf
            exact hwf.2
          have hlen : (renderEntriesJ ((k, v) :: x :: xs)).length
              = (quoteStr k).length + 2 + (renderJ v).length
                + 2 + (renderEntriesJ (x :: xs)).length := by
            rw [show renderEntriesJ ((k, v) :: x :: xs)
                = quoteStr k ++ ':' :: ' ' :: renderJ v
                    ++ ',' :: ' ' :: renderEntriesJ (x :: xs) from rfl]
            simp
            omega
          have hfv : (renderJ v).length < f := by omega
          have hft : (renderEntriesJ (x :: xs)).length + 1 < f := by omega
          have harg : renderEntriesJ ((k, v) :: x :: xs) ++ '\x7d' :: rest
              = '"' :: (k.flatMap escChar
                  ++ '"' :: (':' :: ' ' :: (renderJ v
                      ++ ',' :: ' ' :: (renderEntriesJ (x :: xs) ++ '\x7d' :: rest)))) := by
            rw [show renderEntriesJ ((k, v) :: x :: xs)
                = quoteStr k ++ ':' :: ' ' :: renderJ v
                    ++ ',' :: ' ' :: renderEntriesJ (x :: xs) from rfl,
              quoteStr]
            simp
          rw [harg, parseEntries, dropWs_self (by decide)]
          show (match parseStrBody [] (k.flatMap escChar
              ++ '"' :: (':' :: ' ' :: (renderJ v
                  ++ ',' :: ' ' :: (renderEntriesJ (x :: xs) ++ '\x7d' :: rest)))) with
            | none => none
            | some (key, r1) =>
                match dropWs r1 with
                | ':' :: r2 =>
                    match parseValue f r2 with
                    | none => none
                    | some (w, r3) =>
                        match dropWs r3 with
                        | ',' :: r4 => (parseEntries f r4).map (fun p : List (List Char × Json) × List Char => ((key, w) :: p.1, p.2))
                        | '\x7d' :: r4 => some ([(key, w)], r4)
                        | _ => none
                | _ => none) = _
          rw [parseStrBody_flatMap]
          show (match dropWs (':' :: ' ' :: (renderJ v
              ++ ',' :: ' ' :: (renderEntriesJ (x :: xs) ++ '\x7d' :: rest))) with
            | ':' :: r2 =>
                match parseValue f r2 with
                | none => none
                | some (w, r3) =>
                    match dropWs r3 with
                    | ',' :: r4 => (parseEntries f r4).map (fun p : List (List Char × Json) × List Char => ((k, w) :: p.1, p.2))
                    | '\x7d' :: r4 => some ([(k, w)], r4)
                    | _ => none
            | _ => none) = _
          rw [dropWs_self (by decide)]
          show (match parseValue f (' ' :: (renderJ v
              ++ ',' :: ' ' :: (renderEntriesJ (x :: xs) ++ '\x7d' :: rest))) with
            | none => none
            | some (w, r3) =>
                match dropWs r3 with
                | ',' :: r4 => (parseEntries f r4).map (fun p : List (List Char × Json) × List Char => ((k, w) :: p.1, p.2))
                | '\x7d' :: r4 => some ([(k, w)], r4)
                | _ => none) = _
          rw [parseValue_blank,
            rtVal v f (',' :: ' ' :: (renderEntriesJ (x :: xs) ++ '\x7d' :: rest)) hwv hfv
              (snt_comma _)]
          show (match dropWs (',' :: ' ' :: (renderEntriesJ (x :: xs) ++ '\x7d' :: rest)) with
            | ',' :: r4 => (parseEntries f r4).map (fun p : List (List Char × Json) × List Char => ((k, v) :: p.1, p.2))
            | '\x7d' :: r4 => some ([(k, v)], r4)
            | _ => none) = _
          rw [dropWs_self (by decide)]
          show (parseEntries f (' ' :: (renderEntriesJ (x :: xs) ++ '\x7d' :: rest))).map
            (fun p : List (List Char × Json) × List Char => ((k, v) :: p.1, p.2)) = _
          rw [parseEntries_blank, rtEntries x xs f rest hwt hft]
          rfl
  termination_by kv es _ _ _ _ => sizeOf kv + sizeOf es

end

end SkillEd

namespace SkillEd

/-! ## Everything the parser produces is well-formed -/

/-- `wfItemsJ` is `wfJ` at every element. -/
theorem wfItemsJ_iff (vs : List Json) :
    wfItemsJ vs = true ↔ ∀ v ∈ vs, wfJ v = true := by
  induction vs with
  | nil => simp [wfItemsJ]
  | cons v t ih =>
      rw [show wfItemsJ (v :: t) = (wfJ v && wfItemsJ t) from rfl, Bool.and_eq_true, ih]
      simp

/-- `wfEntriesJ` is `wfJ` at every entry's value. -/
theorem wfEntriesJ_iff (ms : List (List Char × Json)) :
    wfEntriesJ ms = true ↔ ∀ kv ∈ ms, wfJ kv.2 = true := by
  induction ms with
  | nil => simp [wfEntriesJ]
  | cons kv t ih =>
      obtain ⟨k, v⟩ := kv
      rw [show wfEntriesJ ((k, v) :: t) = (wfJ v && wfEntriesJ t) from rfl,
        Bool.and_eq_true, ih]
      simp

mutual

/-- Values out of `parseValue` are well-formed. -/
theorem wf_parseValue : ∀ (fuel : Nat) (cs : List Char) (v : Json) (r : List Char),
    parseValue fuel cs = some (v, r) → wfJ v = true
  | 0, _, _, _, h => by simp [parseValue] at h
  | fuel + 1, cs, v, r, h => by
      rw [parseValue] at h
      split at h
      · simp only [Option.some.injEq, Prod.mk.injEq] at h
        rw [← h.1]; rfl
      · simp only [Option.some.injEq, Prod.mk.injEq] at h
        rw [← h.1]; rfl
      · simp only [Option.some.injEq, Prod.mk.injEq] at h
        rw [← h.1]; rfl
      · rw [Option.map_eq_some'] at h
        obtain ⟨p, _, he⟩ := h
        have : Json.str p.1 = v := congrArg Prod.fst he
        rw [← this]; rfl
      · split at h
        · simp only [Option.some.injEq, Prod.mk.injEq] at h
          rw [← h.1]; rfl
        · rw [Option.map_eq_some'] at h
          obtain ⟨p, hp, he⟩ := h
          have hv : Json.arr p.1 = v := congrArg Prod.fst he
          rw [← hv]
          exact wf_parseItems fuel _ p.1 p.2 (by rw [← hp])
      · split at h
        · simp only [Option.some.injEq, Prod.mk.injEq] at h
          rw [← h.1]; rfl
        · rw [Option.map_eq_some'] at h
          obtain ⟨p, hp, he⟩ := h
          have hv : Json.obj (pyDictOf p.1) = v := congrArg Prod.fst he
          rw [← hv]
          have hwe : wfEntriesJ p.1 = true :=
            wf_parseEntries fuel _ p.1 p.2 (by rw [← hp])
          show (keysDistinct (pyDictOf p.1) && wfEntriesJ (pyDictOf p.1)) = true
          rw [Bool.and_eq_true]
          refine ⟨keysDistinct_pyDictOf p.1, ?_⟩
          rw [wfEntriesJ_iff]
          intro kv hkv
          exact (wfEntriesJ_iff p.1).mp hwe kv (mem_pyDictOf hkv)
      · split at h
        · rw [Option.map_eq_some'] at h
          obtain ⟨p, _, he⟩ := h
          have : Json.num p.1 = v := congrArg Prod.fst he
          rw [← this]; rfl
        · cases h
      · cases h

/-- Item lists out of `parseItems` are well-formed. -/
theorem wf_parseItems : ∀ (fuel : Nat) (cs : List Char) (vs : List Json) (r : List Char),
    parseItems fuel cs = some (vs, r) → wfItemsJ vs = true
  | 0, _, _, _, h => by simp [parseItems] at h
  | fuel + 1, cs, vs, r, h => by
      rw [parseItems] at h
      split at h
      · cases h
      · rename_i w rr hp
        have hwv : wfJ w = true := wf_parseValue fuel cs w rr hp
        split at h
        · rw [Option.map_eq_some'] at h
          obtain ⟨q, hq, he⟩ := h
          have hv : w :: q.1 = vs := congrArg Prod.fst he
          rw [← hv, wfItemsJ_iff]
          intro w hw
          rcases List.mem_cons.mp hw with hw | hw
          · rw [hw]; exact hwv
          · exact (wfItemsJ_iff q.1).mp (wf_parseItems fuel _ q.1 q.2 (by rw [← hq])) w hw
        · simp only [Option.some.injEq, Prod.mk.injEq] at h
          rw [← h.1, wfItemsJ_iff]
          intro w hw
          rw [List.mem_singleton.mp hw]
          exact hwv
        · cases h

/-- Entry lists out of `parseEntries` are well-formed. -/
theorem wf_parseEntries : ∀ (fuel : Nat) (cs : List Char)
    (ms : List (List Char × Json)) (r : List Char),
    parseEntries fuel cs = some (ms, r) → wfEntriesJ ms = true
  | 0, _, _, _, h => by simp [parseEntries] at h
  | fuel + 1, cs, ms, r, h => by
      rw [parseEntries] at h
      split at h
      · split at h
        · cases h
        · rename_i k r1 hk
          split at h
          · split at h
            · cases h
            · rename_i w r3 hp
              have hwv : wfJ w = true :=
                wf_parseValue fuel _ w r3 hp
              split at h
              · rw [Option.map_eq_some'] at h
                obtain ⟨q, hq, he⟩ := h
                have hv : (k, w) :: q.1 = ms := congrArg Prod.fst he
                rw [← hv, wfEntriesJ_iff]
                intro kv hkv
                rcases List.mem_cons.mp hkv with hkv | hkv
                · rw [hkv]; exact hwv
                · exact (wfEntriesJ_iff q.1).mp
                    (wf_parseEntries fuel _ q.1 q.2 (by rw [← hq])) kv hkv
              · simp only [Option.some.injEq, Prod.mk.injEq] at h
                rw [← h.1, wfEntriesJ_iff]
                intro kv hkv
                rw [List.mem_singleton.mp hkv]
                exact hwv
              · cases h
          · cases h
      · cases h

end

/-- Values out of `pyLoadsL` are well-formed. -/
theorem wf_pyLoadsL {cs : List Char} {v : Json} (h : pyLoadsL cs = some v) :
    wfJ v = true := by
  unfold pyLoadsL at h
  split at h
  · rename_i w rr hp
    split at h
    · rw [← Option.some_inj.mp h]
      exact wf_parseValue _ _ w rr hp
    · cases h
  · cases h

end SkillEd

namespace SkillEd

/-- Parsing the rendering of a well-formed value recovers it exactly. -/
theorem pyLoadsL_renderJ {v : Json} (hwf : wfJ v = true) :
    pyLoadsL (renderJ v) = some v := by
  have h := rtVal v ((renderJ v).length + 1) [] hwf (by omega) rfl
  rw [List.append_nil] at h
  unfold pyLoadsL
  rw [h]
  rfl

/-- The `json` codec round-trip the program relies on: whatever
`json.loads` accepted, `json.loads` of its `json.dumps` gives back. -/
theorem pyLoads_pyDumps {s : String} {v : Json} (h : pyLoads s = some v) :
    pyLoads (pyDumps v) = some v := by
  have hwf := wf_pyLoadsL h
  unfold pyLoads pyDumps
  rw [show (String.mk (renderJ v)).toList = renderJ v from rfl]
  exact pyLoadsL_renderJ hwf

end SkillEd

namespace SkillEd

/-! ## The program's form-field data model -/

/-- The eight required form fields, one `QLineEdit` each, in the insertion
order of the `REQUIRED_FIELDS` dict (which is the iteration order of
`self.fields` throughout the program). -/
structure FieldMap where
  name : String
  hubId : String
  description : String
  entrypoint_file : String
  entrypoint_params : String
  output_description : String
  version : String
  schema : String

/-- The keys of `REQUIRED_FIELDS`, in order. -/
def requiredKeys : List String :=
  ["name", "hubId", "description", "entrypoint_file", "entrypoint_params",
   "output_description", "version", "schema"]

/-- The form's `(key, text)` pairs, in iteration order. -/
def fieldEntries (m : FieldMap) : List (String × String) :=
  [("name", m.name), ("hubId", m.hubId), ("description", m.description),
   ("entrypoint_file", m.entrypoint_file), ("entrypoint_params", m.entrypoint_params),
   ("output_description", m.output_description), ("version", m.version),
   ("schema", m.schema)]

/-- The i-th required key. -/
def keyAt (i : Fin 8) : String := requiredKeys.get (Fin.cast (by rfl) i)

/-- The i-th field's text. -/
def fieldAt (m : FieldMap) (i : Fin 8) : String :=
  ((fieldEntries m).get (Fin.cast (by rfl) i)).2

/-- `REVERSE_TEXT_SKILL_DEFAULTS`, the texts the Add form starts with. -/
def REVERSE_TEXT_SKILL_DEFAULTS : FieldMap where
  name := "Reverse Text"
  hubId := "reverse-text"
  description := "Takes a string input and returns the reversed version."
  entrypoint_file := "handler.js"
  entrypoint_params :=
    "\x7b \"text\": \x7b \"description\": \"The text to reverse.\", \"type\": \"string\" \x7d \x7d"
  output_description := "Returns the reversed string."
  version := "1.0.0"
  schema := "skill-1.0.0"

/-- The message `create_skill` appends for an empty required field. -/
def emptyFieldMsg (key : String) : String := sq ++ key ++ sq ++ " cannot be empty."

/-- STEP 1 of `create_skill`: walk the fields in order, collecting an error
for every text that strips to nothing. -/
def validateRequired (m : FieldMap) : List String :=
  (fieldEntries m).filterMap
    (fun kv => if pyStrip kv.2 = "" then some (emptyFieldMsg kv.1) else none)

/-- The `data` dict STEP 1 builds when validation passes: every field
stripped. -/
def strippedMap (m : FieldMap) : FieldMap where
  name := pyStrip m.name
  hubId := pyStrip m.hubId
  description := pyStrip m.description
  entrypoint_file := pyStrip m.entrypoint_file
  entrypoint_params := pyStrip m.entrypoint_params
  output_description := pyStrip m.output_description
  version := pyStrip m.version
  schema := pyStrip m.schema

/-- Overwrite one field's text (typing into an unlocked `QLineEdit`). -/
def setField (m : FieldMap) : Fin 8 → String → FieldMap
  | ⟨0, _⟩, v => { m with name := v }
  | ⟨1, _⟩, v => { m with hubId := v }
  | ⟨2, _⟩, v => { m with description := v }
  | ⟨3, _⟩, v => { m with entrypoint_file := v }
  | ⟨4, _⟩, v => { m with entrypoint_params := v }
  | ⟨5, _⟩, v => { m with output_description := v }
  | ⟨6, _⟩, v => { m with version := v }
  | ⟨7, _⟩, v => { m with schema := v }

/-- `clear_form`: every `QLineEdit` cleared. -/
def clearedFields : FieldMap :=
  ⟨"", "", "", "", "", "", "", ""⟩

/-! ## Filesystem model

One skills root holding plain files and one level of skill folders, each a
list of `(filename, content)` pairs.  This is exactly the shape every
filesystem operation in the program touches: nothing reads deeper. -/

/-- An immediate child of the skills root. -/
inductive RootEntry where
  | file (nm : String) (content : String)
  | dir (nm : String) (files : List (String × String))

/-- Name of a root entry. -/
def entryName : RootEntry → String
  | .file nm _ => nm
  | .dir nm _ => nm

/-- The skills root (`default_skill_output_path`), in `os.listdir` order. -/
abbrev SkillsRoot := List RootEntry

/-- `os.path.exists` directly under the root. -/
def rootHas (root : SkillsRoot) (nm : String) : Bool :=
  root.any (fun e => entryName e = nm)

/-- The contents of the folder called `nm`, when `os.path.isdir` holds. -/
def dirFiles? (root : SkillsRoot) (nm : String) : Option (List (String × String)) :=
  root.findSome? (fun e => match e with
    | .dir n fs => if n = nm then some fs else none
    | .file _ _ => none)

/-- `os.makedirs(target, exist_ok=True)`: an existing folder is fine, a
plain file in the way raises, otherwise the folder appears (empty). -/
def makedirs (root : SkillsRoot) (nm : String) : Option SkillsRoot :=
  if (dirFiles? root nm).isSome then some root
  else if rootHas root nm then none
  else some (root ++ [.dir nm []])

/-- `open(path, "w")` + write within a folder: replace the file's content,
or create the file. -/
def updAssoc (fs : List (String × String)) (k v : String) : List (String × String) :=
  if (fs.map Prod.fst).contains k then
    fs.map (fun p => if p.1 = k then (k, v) else p)
  else fs ++ [(k, v)]

/-- Write `fname` inside the folder called `nm`. -/
def writeFile (root : SkillsRoot) (nm fname content : String) : SkillsRoot :=
  root.map (fun e => match e with
    | .dir n fs => if n = nm then .dir n (updAssoc fs fname content) else .dir n fs
    | .file n c => .file n c)

/-- Look a file up inside a folder's contents. -/
def lookupAssoc (fs : List (String × String)) (k : String) : Option String :=
  fs.findSome? (fun p => if p.1 = k then some p.2 else none)

end SkillEd

namespace SkillEd

/-! ## `AddSkillDialog.create_skill` -/

/-- The built-in boilerplate handler written when the preview area is
empty (STEP 8). -/
def DEFAULT_HANDLER : String :=
  "module.exports.runtime = \x7b\n    handler: async function (params) \x7b\n        const input = params.text || \"\";\n        const reversed = input.split(\"\").reverse().join(\"\");\n        return `Reversed: $\x7breversed\x7d`;\n    \x7d\n\x7d;"

/-- How a `create_skill` run ends. -/
inductive CreateOutcome where
  | validationError (errors : List String)
  | existsError (msg : String)
  | paramsError
  | osError
  | created (doc : Json) (handler : String)

/-- `AddSkillDialog.create_skill`, STEP 1 through STEP 9, acting on the
skills root.  The outcome records the `plugin_data` dict and handler text
of a successful run (they are also written into the root). -/
def create_skill (m : FieldMap) (previewText : String) (allow_skill_overwrite : Bool)
    (root : SkillsRoot) : SkillsRoot × CreateOutcome :=
  let errors := validateRequired m
  if errors ≠ [] then (root, .validationError errors)
  else
    let d := strippedMap m
    let target := d.hubId
    if rootHas root target ∧ allow_skill_overwrite = false then
      (root, .existsError ("Skill " ++ sq ++ d.hubId ++ sq ++ " already exists."))
    else
      match makedirs root target with
      | none => (root, .osError)
      | some root1 =>
          match pyLoads d.entrypoint_params with
          | none => (root1, .paramsError)
          | some params_json =>
              let plugin_data := Json.obj
                [("active".toList, .bool true),
                 ("hubId".toList, .str d.hubId.toList),
                 ("name".toList, .str d.name.toList),
                 ("schema".toList, .str d.schema.toList),
                 ("version".toList, .str d.version.toList),
                 ("description".toList, .str d.description.toList),
                 ("entrypoint".toList, .obj
                   [("file".toList, .str d.entrypoint_file.toList),
                    ("params".toList, params_json)])]
              let root2 := writeFile root1 target "plugin.json" (pyDumpsInd plugin_data)
              let handler_code :=
                if pyStrip previewText ≠ "" then pyStrip previewText else DEFAULT_HANDLER
              let root3 := writeFile root2 target d.entrypoint_file handler_code
              (root3, .created plugin_data handler_code)

/-! ## `SkillEditor.populate_skill_dropdown` (the listing) -/

/-- Contiguous-substring test, as Python's `in` on strings. -/
def strIn (needle : List Char) : List Char → Bool
  | [] => needle.isEmpty
  | c :: t => needle.isPrefixOf (c :: t) || strIn needle t

/-- Python's `key in pdata` on a parsed JSON document: key lookup in a
dict, element equality in a list, substring in a string; anything else
(numbers, booleans, null) raises `TypeError`, which the listing's broad
`except` turns into a skip. -/
def pyInCheck (k : String) (v : Json) : Option Bool :=
  match v with
  | .obj ms => some ((keysOf ms).contains k.toList)
  | .arr es => some (es.any (fun e => match e with
      | .str s => s = k.toList
      | _ => false))
  | .str s => some (strIn k.toList s)
  | _ => none

/-- The five keys the listing demands of `plugin.json`. -/
def fiveKeys : List String := ["name", "hubId", "description", "version", "schema"]

/-- `all(key in pdata for key in [...])` with its short-circuit, `none`
standing for a raised `TypeError`. -/
def checksAll (v : Json) : List String → Option Bool
  | [] => some true
  | k :: ks =>
      match pyInCheck k v with
      | none => none
      | some false => some false
      | some true => checksAll v ks

/-- A folder the listing accepts: both files present, `plugin.json` parses,
and the five membership checks pass without raising. -/
def validSkillFiles (files : List (String × String)) : Bool :=
  match lookupAssoc files "plugin.json", lookupAssoc files "handler.js" with
  | some pjson, some _ =>
      (match pyLoads pjson with
       | some pdata =>
           (match checksAll pdata fiveKeys with
            | some true => true
            | _ => false)
       | none => false)
  | _, _ => false

/-- The skill names `populate_skill_dropdown` lists (the dropdown shows a
placeholder item above them), sorted with `key=lambda s: s.lower()`. -/
def populate_skill_dropdown (root : SkillsRoot) : List String :=
  (root.filterMap (fun e => match e with
    | .dir nm files => if validSkillFiles files then some nm else none
    | .file _ _ => none)).mergeSort lowerLe

/-- The listing contract in the spec's words: a readable `plugin.json`
that is valid JSON *with the five mandatory top-level keys* — so its
top level is an object carrying those keys — next to a `handler.js`. -/
def specValidSkillFiles (files : List (String × String)) : Bool :=
  match lookupAssoc files "plugin.json", lookupAssoc files "handler.js" with
  | some pjson, some _ =>
      (match pyLoads pjson with
       | some (Json.obj ms) => fiveKeys.all (fun k => (keysOf ms).contains k.toList)
       | _ => false)
  | _, _ => false

/-! ## `DeleteSkillDialog.confirm_delete` -/

/-- The names the module's import statements (lines 4–15 of the file) bind
at module level.  `shutil` is *not* among them: it is imported only inside
`backup_log` and `browse_icon`, where `import shutil` binds a
function-local name. -/
def moduleImportedNames : List String :=
  ["sys", "os", "json", "datetime", "configparser", "time",
   "QApplication", "QMainWindow", "QWidget", "QLabel", "QPushButton",
   "QVBoxLayout", "QHBoxLayout", "QMenuBar", "QMenu", "QFileDialog",
   "QDialog", "QTextEdit", "QLineEdit", "QFormLayout", "QCheckBox",
   "QComboBox", "QMessageBox", "QToolBar", "QStatusBar", "QDockWidget",
   "QTabWidget", "QListWidget", "QListWidgetItem",
   "Qt", "QDateTime", "QEvent", "QFont", "QIcon"]

/-- `shutil.rmtree`: remove the folder recursively; raise when there is no
such folder. -/
def removeTree (root : SkillsRoot) (nm : String) : Option SkillsRoot :=
  if (dirFiles? root nm).isSome then
    some (root.filter (fun e => match e with
      | .dir n _ => n ≠ nm
      | .file _ _ => true))
  else none

/-- How a `confirm_delete` run ends (the dialog's modal text). -/
inductive DeleteOutcome where
  | deleted (msg : String)
  | failed (msg : String)

/-- `DeleteSkillDialog.confirm_delete`: evaluate `shutil.rmtree(...)`.
Resolving the name `shutil` consults the function's globals — the names the
module's imports bind — raising `NameError` when absent; the broad `except`
turns any exception into the error modal, filesystem untouched. -/
def confirm_delete (root : SkillsRoot) (skill_folder : String) :
    SkillsRoot × DeleteOutcome :=
  if moduleImportedNames.contains "shutil" then
    match removeTree root skill_folder with
    | some root2 =>
        (root2, .deleted ("Skill in folder " ++ sq ++ skill_folder ++ sq ++ " deleted."))
    | none => (root, .failed "Failed to delete skill:\nNo such file or directory")
  else
    (root, .failed ("Failed to delete skill:\nname " ++ sq ++ "shutil" ++ sq
      ++ " is not defined"))

end SkillEd

namespace SkillEd

/-! ## `preview_skill` (identical body in `AddSkillDialog` and
`ModifySkillDialog`) -/

/-- `params_obj`: the params text parsed as JSON, or the raw string when
parsing fails (the method's broad `except`). -/
def previewParamsObj (s : String) : Json :=
  match pyLoads s with
  | some v => v
  | none => .str s.toList

/-- The dict `preview_skill` serializes: note the extra top-level
`output_description` key, absent from the dict `create_skill` writes. -/
def previewDoc (d : FieldMap) : Json :=
  Json.obj
    [("active".toList, .bool true),
     ("hubId".toList, .str d.hubId.toList),
     ("name".toList, .str d.name.toList),
     ("schema".toList, .str d.schema.toList),
     ("version".toList, .str d.version.toList),
     ("description".toList, .str d.description.toList),
     ("output_description".toList, .str d.output_description.toList),
     ("entrypoint".toList, .obj
       [("file".toList, .str d.entrypoint_file.toList),
        ("params".toList, previewParamsObj d.entrypoint_params)])]

/-- The text `preview_skill` puts into the preview area:
`json.dumps(..., indent=2)` of `previewDoc` over the stripped fields (the
method's `except` branch is dead: serializing these values cannot fail). -/
def previewPluginText (m : FieldMap) : String :=
  pyDumpsInd (previewDoc (strippedMap m))

/-! ## The `ModifySkillDialog` widget-state machine

The real fields: the eight line edits, the editable preview `QTextEdit`,
and the Update button's enabled flag and tooltip, transformed exactly as
`preview_skill`, `eventFilter` (`FocusIn` on a line edit) and user edits
do.  Two *ghost* fields record history for the invariants — no transition
reads them: `lastPreviewOutput` is the text of the most recent Preview
(none before the first), `fieldFocusSincePreview` is set by a field focus
and cleared by Preview. -/
structure ModState where
  fields : FieldMap
  previewText : String
  updateEnabled : Bool
  updateTooltip : String
  lastPreviewOutput : Option String
  fieldFocusSincePreview : Bool

/-- What the user can do to the dialog short of closing it.  Typing in the
preview area carries no event filter — `installEventFilter` is called only
on the eight line edits — so it reaches no handler. -/
inductive ModEvent where
  | previewClick
  | focusField (i : Fin 8)
  | typeInField (i : Fin 8) (s : String)
  | typeInPreview (s : String)

/-- One event's effect on the dialog. -/
def modStep (s : ModState) : ModEvent → ModState
  | .previewClick =>
      { s with previewText := previewPluginText s.fields
               updateEnabled := true
               updateTooltip := ""
               lastPreviewOutput := some (previewPluginText s.fields)
               fieldFocusSincePreview := false }
  | .focusField _ =>
      { s with updateEnabled := false
               updateTooltip := "Must view preview first"
               previewText := ""
               fieldFocusSincePreview := true }
  | .typeInField i v => { s with fields := setField s.fields i v }
  | .typeInPreview t => { s with previewText := t }

/-- The dialog as `__init__` leaves it: fields loaded from `plugin.json`
(or the defaults), empty preview, Update disabled with its tooltip. -/
def modInit (loaded : FieldMap) : ModState :=
  { fields := loaded
    previewText := ""
    updateEnabled := false
    updateTooltip := "Must view preview first"
    lastPreviewOutput := none
    fieldFocusSincePreview := false }

/-- Run a trace of events. -/
def modRun (s : ModState) (tr : List ModEvent) : ModState := tr.foldl modStep s

/-! ## `ModifySkillDialog.update_skill` -/

/-- Python truthiness of a parsed JSON value. -/
def pyTruthy : Json → Bool
  | .null => false
  | .bool b => b
  | .num n => n ≠ 0
  | .str s => !s.isEmpty
  | .arr es => !es.isEmpty
  | .obj ms => !ms.isEmpty

/-- Dict lookup on a parsed object. -/
def lookupJ (ms : List (List Char × Json)) (k : String) : Option Json :=
  ms.findSome? (fun p => if p.1 = k.toList then some p.2 else none)

/-- `not str(value).strip()`: only a string value can strip to nothing —
`str()` of a number, boolean, `None`, list or dict is never blank. -/
def strStripEmpty : Json → Bool
  | .str s => (pyStripL s).isEmpty
  | _ => false

/-- The entrypoint-dict error message of `update_skill`. -/
def entryDictMsg : String :=
  sq ++ "entrypoint" ++ sq ++ " must be a dictionary with " ++ sq ++ "file" ++ sq
    ++ " and " ++ sq ++ "params" ++ sq ++ "."

/-- The `entrypoint` subfield checks; `none` models the `AttributeError`
raised by `.strip()` on a non-string `file` value. -/
def entryErrors (ms : List (List Char × Json)) : Option (List String) :=
  match lookupJ ms "entrypoint" with
  | some (Json.obj ep) =>
      (match (match lookupJ ep "file" with
              | none => some (Json.str [])
              | some v => some v) with
       | some (Json.str s) =>
           let fileErr := if (pyStripL s).isEmpty
             then [emptyFieldMsg "entrypoint_file"] else []
           let paramsErr :=
             match lookupJ ep "params" with
             | none => [emptyFieldMsg "entrypoint_params"]
             | some p =>
                 if pyTruthy p = false then [emptyFieldMsg "entrypoint_params"]
                 else
                   match p with
                   | .str s2 =>
                       if (pyStripL s2).isEmpty then [emptyFieldMsg "entrypoint_params"]
                       else []
                   | _ => []
           some (fileErr ++ paramsErr)
       | _ => none)
  | _ => some [entryDictMsg]

/-- The `output_description` check; `none` models the `AttributeError`
raised by `.strip()` on a non-string value. -/
def outDescErrors (ms : List (List Char × Json)) : Option (List String) :=
  match lookupJ ms "output_description" with
  | none => some [emptyFieldMsg "output_description"]
  | some (Json.str s) =>
      if (pyStripL s).isEmpty then some [emptyFieldMsg "output_description"] else some []
  | some _ => none

/-- How an `update_skill` run ends. -/
inductive UpdateOutcome where
  | invalidJson
  | validationError (errors : List String)
  | raised
  | osError
  | updated (doc : Json)

/-- `ModifySkillDialog.update_skill`: parse the preview area, validate,
recreate the folder if it vanished, write `plugin.json`.  `raised` marks
the uncaught `TypeError`/`AttributeError` the validation loop hits when
the parsed document is not an object (or carries non-string text fields —
Python indexes and strips them unguarded). -/
def update_skill (previewText : String) (root : SkillsRoot) (skill_folder : String) :
    SkillsRoot × UpdateOutcome :=
  match pyLoads previewText with
  | none => (root, .invalidJson)
  | some (Json.obj ms) =>
      let topErrors := ["name", "hubId", "description", "version", "schema"].filterMap
        (fun k => match lookupJ ms k with
          | none => some (emptyFieldMsg k)
          | some v => if strStripEmpty v then some (emptyFieldMsg k) else none)
      (match entryErrors ms, outDescErrors ms with
       | some epErrs, some odErrs =>
           let errors := topErrors ++ epErrs ++ odErrs
           if errors ≠ [] then (root, .validationError errors)
           else
             (match makedirs root skill_folder with
              | none => (root, .osError)
              | some root1 =>
                  (writeFile root1 skill_folder "plugin.json" (pyDumpsInd (Json.obj ms)),
                   .updated (Json.obj ms)))
       | _, _ => (root, .raised))
  | some _ => (root, .raised)

/-! ## The `AddSkillDialog` widget state (for `preview_skill`) -/

/-- The Add dialog's widget state.  `update_btn` is the attribute
`preview_skill` touches: `__init__` never assigns it (only
`ModifySkillDialog` has one), so it starts absent (`none`), and no
`AddSkillDialog` method ever assigns it either. -/
structure AddState where
  fields : FieldMap
  previewText : String
  update_btn : Option Bool

/-- A Python exception, as far as the claims need one. -/
inductive PyError where
  | attributeError

/-- `AddSkillDialog.__init__`: defaults (or whatever the user typed since),
empty preview, and no `update_btn` attribute. -/
def addInit (m : FieldMap) : AddState :=
  { fields := m, previewText := "", update_btn := none }

/-- `AddSkillDialog.preview_skill`: set the preview area to the generated
text, then execute `self.update_btn.setEnabled(True)` — an attribute
lookup that raises `AttributeError` whenever the attribute is absent. -/
def add_preview_skill (s : AddState) : AddState × Option PyError :=
  let s1 := { s with previewText := previewPluginText s.fields }
  match s1.update_btn with
  | some _ => ({ s1 with update_btn := some true }, none)
  | none => (s1, some .attributeError)

/-- What the user can do in the Add dialog (`create_skill` acts on the
filesystem and is modelled separately). -/
inductive AddEvent where
  | previewClick
  | clearForm
  | typeInField (i : Fin 8) (s : String)
  | typeInPreview (s : String)

/-- One event's effect on the Add dialog. -/
def addStep (s : AddState) : AddEvent → AddState
  | .previewClick => (add_preview_skill s).1
  | .clearForm => { s with fields := clearedFields }
  | .typeInField i v => { s with fields := setField s.fields i v }
  | .typeInPreview t => { s with previewText := t }

/-- Run a trace of Add-dialog events. -/
def addRun (s : AddState) (tr : List AddEvent) : AddState := tr.foldl addStep s

end SkillEd

namespace SkillEd

/-! ## Supporting lemmas for the claims -/

/-- `pyStrLe` is total. -/
theorem pyStrLe_total : ∀ a b : List Char, (pyStrLe a b || pyStrLe b a) = true
  | [], _ => by simp [pyStrLe]
  | _ :: _, [] => by simp [pyStrLe]
  | a :: as, b :: bs => by
      by_cases h1 : a.toNat < b.toNat
      · simp [pyStrLe, h1]
      · by_cases h2 : b.toNat < a.toNat
        · simp [pyStrLe, h1, h2]
        · simp only [pyStrLe, if_neg h1, if_neg h2]
          exact pyStrLe_total as bs

/-- `pyStrLe` is transitive. -/
theorem pyStrLe_trans : ∀ a b c : List Char,
    pyStrLe a b = true → pyStrLe b c = true → pyStrLe a c = true
  | [], _, _, _, _ => by simp [pyStrLe]
  | _ :: _, [], _, h, _ => by simp [pyStrLe] at h
  | _ :: _, _ :: _, [], _, h => by simp [pyStrLe] at h
  | a :: as, b :: bs, c :: cs, h1, h2 => by
      simp only [pyStrLe] at h1 h2 ⊢
      by_cases hab : a.toNat < b.toNat
      · by_cases hbc : b.toNat < c.toNat
        · rw [if_pos (by omega)]
        · rw [if_neg hbc] at h2
          by_cases hcb : c.toNat < b.toNat
          · rw [if_pos hcb] at h2; cases h2
          · rw [if_pos (by omega)]
      · rw [if_neg hab] at h1
        by_cases hba : b.toNat < a.toNat
        · rw [if_pos hba] at h1; cases h1
        · rw [if_neg hba] at h1
          by_cases hbc : b.toNat < c.toNat
          · rw [if_pos (by omega)]
          · rw [if_neg hbc] at h2
            by_cases hcb : c.toNat < b.toNat
            · rw [if_pos hcb] at h2; cases h2
            · rw [if_neg hcb] at h2
              rw [if_neg (by omega), if_neg (by omega)]
              exact pyStrLe_trans as bs cs h1 h2

/-- `lowerLe` is total. -/
theorem lowerLe_total (a b : String) : (lowerLe a b || lowerLe b a) = true :=
  pyStrLe_total _ _

/-- `lowerLe` is transitive. -/
theorem lowerLe_trans (a b c : String) (h1 : lowerLe a b = true)
    (h2 : lowerLe b c = true) : lowerLe a c = true :=
  pyStrLe_trans _ _ _ h1 h2

/-- A needle one position in is still found. -/
theorem strIn_cons_append (needle rest : List Char) (c : Char) :
    strIn needle (c :: (needle ++ rest)) = true := by
  rw [strIn]
  cases needle with
  | nil => simp [strIn]
  | cons n t =>
      rw [Bool.or_eq_true]
      right
      rw [List.cons_append, strIn]
      rw [Bool.or_eq_true]
      left
      rw [List.isPrefixOf_iff_prefix]
      exact List.prefix_append _ _

/-- A successful `update_skill` wrote exactly the parsed preview text. -/
theorem update_skill_parsed {t : String} {root root' : SkillsRoot}
    {folder : String} {doc : Json}
    (h : update_skill t root folder = (root', .updated doc)) :
    pyLoads t = some doc := by
  unfold update_skill at h
  cases hp : pyLoads t with
  | none =>
      rw [hp] at h
      exact absurd (congrArg Prod.snd h) (by simp)
  | some v =>
      rw [hp] at h
      cases v with
      | null => exact absurd (congrArg Prod.snd h) (by simp)
      | bool b => exact absurd (congrArg Prod.snd h) (by simp)
      | num n => exact absurd (congrArg Prod.snd h) (by simp)
      | str s => exact absurd (congrArg Prod.snd h) (by simp)
      | arr es => exact absurd (congrArg Prod.snd h) (by simp)
      | obj ms =>
          simp only at h
          cases he : entryErrors ms with
          | none =>
              rw [he] at h
              exact absurd (congrArg Prod.snd h) (by simp)
          | some ep =>
              cases ho : outDescErrors ms with
              | none =>
                  rw [he, ho] at h
                  exact absurd (congrArg Prod.snd h) (by simp)
              | some od =>
                  rw [he, ho] at h
                  simp only at h
                  split at h
                  · exact absurd (congrArg Prod.snd h) (by simp)
                  · cases hm : makedirs root folder with
                    | none =>
                        rw [hm] at h
                        exact absurd (congrArg Prod.snd h) (by simp)
                    | some root1 =>
                        rw [hm] at h
                        have := congrArg Prod.snd h
                        simp only at this
                        injection this with h2
                        rw [h2]

/-- `makedirs` leaves the root alone or appends one empty folder. -/
theorem makedirs_shape {root root1 : SkillsRoot} {nm : String}
    (h : makedirs root nm = some root1) :
    root1 = root ∨ root1 = root ++ [RootEntry.dir nm []] := by
  unfold makedirs at h
  split at h
  · left; injection h with h'; exact h'.symm
  · split at h
    · cases h
    · right; injection h with h'; exact h'.symm

/-- Entry names are all different from `nm` when `rootHas` fails. -/
theorem rootHas_false_names {root : SkillsRoot} {nm : String}
    (h : rootHas root nm = false) : ∀ e ∈ root, entryName e ≠ nm := by
  intro e he
  unfold rootHas at h
  rw [List.any_eq_false] at h
  have := h e he
  simpa using this

/-- After `makedirs`, the folder is there. -/
theorem makedirs_dirFiles {root root1 : SkillsRoot} {nm : String}
    (h : makedirs root nm = some root1) :
    ∃ fs, dirFiles? root1 nm = some fs := by
  unfold makedirs at h
  split at h
  · rename_i hsome
    injection h with h2
    rw [← h2]
    exact Option.isSome_iff_exists.mp hsome
  · split at h
    · cases h
    · rename_i hno
      have hfalse : rootHas root nm = false := by
        cases hb : rootHas root nm with
        | false => rfl
        | true => exact absurd hb hno
      have hnames := rootHas_false_names hfalse
      injection h with h2
      rw [← h2]
      refine ⟨[], ?_⟩
      unfold dirFiles?
      rw [List.findSome?_append]
      have hn : root.findSome? (fun e => match e with
          | RootEntry.dir n fs => if n = nm then some fs else none
          | RootEntry.file _ _ => none) = none := by
        rw [List.findSome?_eq_none_iff]
        intro e he
        match e with
        | RootEntry.file n c => simp
        | RootEntry.dir n fs =>
            have := hnames (RootEntry.dir n fs) he
            simp only [entryName] at this
            simp [this]
      rw [hn]
      simp [List.findSome?]

/-- `writeFile` updates exactly the named folder's contents. -/
theorem writeFile_dirFiles {root : SkillsRoot} {nm : String}
    {fs : List (String × String)} (fname content : String)
    (h : dirFiles? root nm = some fs) :
    dirFiles? (writeFile root nm fname content) nm = some (updAssoc fs fname content) := by
  induction root with
  | nil => simp [dirFiles?] at h
  | cons e t ih =>
      match e with
      | RootEntry.file n c =>
          unfold dirFiles? at h ⊢
          rw [List.findSome?_cons] at h
          simp only at h
          unfold writeFile
          rw [List.map_cons, List.findSome?_cons]
          simp only
          exact ih h
      | RootEntry.dir n fs0 =>
          by_cases hn : n = nm
          · subst hn
            unfold dirFiles? at h
            rw [List.findSome?_cons] at h
            simp only [if_pos rfl] at h
            injection h with h2
            subst h2
            unfold writeFile
            rw [List.map_cons]
            simp only [if_pos rfl]
            unfold dirFiles?
            rw [List.findSome?_cons]
            simp
          · unfold dirFiles? at h
            rw [List.findSome?_cons] at h
            simp only [if_neg hn] at h
            unfold writeFile
            rw [List.map_cons]
            simp only [if_neg hn]
            unfold dirFiles?
            rw [List.findSome?_cons]
            simp only [if_neg hn]
            exact ih h

/-- A freshly written file reads back as written. -/
theorem lookup_updAssoc (fs : List (String × String)) (k v : String) :
    lookupAssoc (updAssoc fs k v) k = some v := by
  unfold updAssoc
  by_cases hc : (fs.map Prod.fst).contains k = true
  · rw [if_pos hc]
    induction fs with
    | nil => simp at hc
    | cons p t ih =>
        simp only [List.map_cons, List.contains_cons, Bool.or_eq_true] at hc
        by_cases hp : p.1 = k
        · unfold lookupAssoc
          rw [List.map_cons, if_pos hp, List.findSome?_cons]
          simp
        · unfold lookupAssoc
          rw [List.map_cons, if_neg hp, List.findSome?_cons]
          simp only [if_neg hp]
          apply ih
          rcases hc with hc | hc
          · rw [beq_iff_eq] at hc; exact absurd hc.symm hp
          · exact hc
  · rw [if_neg hc]
    have hfree : ∀ p ∈ fs, p.1 ≠ k := by
      intro p hp he
      apply hc
      simp only [List.contains_eq_any_beq, List.any_eq_true]
      exact ⟨p.1, List.mem_map_of_mem Prod.fst hp, by simp [he]⟩
    clear hc
    induction fs with
    | nil => simp [lookupAssoc, List.findSome?]
    | cons p t ih =>
        unfold lookupAssoc
        rw [List.cons_append, List.findSome?_cons]
        simp only [if_neg (hfree p (by simp))]
        exact ih (fun q hq => hfree q (by simp [hq]))

end SkillEd

namespace SkillEd

/-! ## Concrete fixtures used by witnesses and counterexamples -/

/-- A small fully-populated form (params text `1`, valid JSON). -/
def tinyFields : FieldMap := ⟨"n", "h", "d", "f", "1", "o", "v", "s"⟩

/-- A folder whose `plugin.json` is a JSON *array* of the five key names,
next to a `handler.js`. -/
def weirdFiles : List (String × String) :=
  [("plugin.json", "[\"name\", \"hubId\", \"description\", \"version\", \"schema\"]"),
   ("handler.js", "x")]

/-- The `plugin_data` dict a successful `create_skill` over `tinyFields`
builds (STEP 6). -/
def tinyDoc : Json :=
  Json.obj
    [("active".toList, .bool true),
     ("hubId".toList, .str "h".toList),
     ("name".toList, .str "n".toList),
     ("schema".toList, .str "s".toList),
     ("version".toList, .str "v".toList),
     ("description".toList, .str "d".toList),
     ("entrypoint".toList, .obj
       [("file".toList, .str "f".toList),
        ("params".toList, Json.num 1)])]

/-! ## The claims -/

/-- C1: the claim says confirming Delete recursively removes the skill
folder, failing only on a missing path or denied removal.  The code can
never remove anything: `confirm_delete` evaluates `shutil.rmtree`, but the
module (imports, lines 4–15) binds no global `shutil` — it is imported
only function-locally in `backup_log`/`browse_icon` — so the lookup raises
`NameError`, the broad `except` shows the failure modal, and the
filesystem is untouched; a subsequent listing still reports the folder. -/
theorem c1_confirm_delete_never_deletes (root : SkillsRoot) (skill_folder : String) :
    confirm_delete root skill_folder
      = (root, DeleteOutcome.failed ("Failed to delete skill:\nname " ++ sq
          ++ "shutil" ++ sq ++ " is not defined"))
    ∧ populate_skill_dropdown (confirm_delete root skill_folder).1
        = populate_skill_dropdown root := by
  exact ⟨rfl, rfl⟩

/-- C2 (counterexample): with every field at its default but
`entrypoint_params` not valid JSON, the submission fails — yet the target
folder `reverse-text` has already been created in the empty root (STEP 4
`os.makedirs` runs before the STEP 5 JSON parse), so filesystem state *is*
created, contradicting the claim's all-or-nothing reading. -/
theorem c2_params_error_leaves_folder :
    create_skill { REVERSE_TEXT_SKILL_DEFAULTS with entrypoint_params := "not json" }
        "" false []
      = ([RootEntry.dir "reverse-text" []], CreateOutcome.paramsError)
    ∧ [RootEntry.dir "reverse-text" []] ≠ ([] : SkillsRoot) := by
  exact ⟨rfl, by simp⟩

/-- C2 (amended): a missing required field fails the submission before any
filesystem step, leaving the root untouched; invalid `entrypoint_params`
JSON also fails the whole submission and writes no file, but only after
`os.makedirs` has run, so the run ends with the root either unchanged or
extended by exactly one empty target folder. -/
theorem c2_create_skill_atomicity :
    (∀ (m : FieldMap) (p : String) (a : Bool) (root : SkillsRoot),
       validateRequired m ≠ [] →
       create_skill m p a root = (root, .validationError (validateRequired m)))
    ∧ (∀ (m : FieldMap) (p : String) (a : Bool) (root root1 : SkillsRoot),
       validateRequired m = [] →
       ¬(rootHas root (strippedMap m).hubId = true ∧ a = false) →
       makedirs root (strippedMap m).hubId = some root1 →
       pyLoads (strippedMap m).entrypoint_params = none →
       create_skill m p a root = (root1, .paramsError)
       ∧ (root1 = root ∨ root1 = root ++ [RootEntry.dir (strippedMap m).hubId []])) := by
  constructor
  · intro m p a root hval
    unfold create_skill
    rw [if_pos hval]
  · intro m p a root root1 hval hover hmk hparse
    refine ⟨?_, makedirs_shape hmk⟩
    unfold create_skill
    rw [if_neg (by simp [hval]), if_neg hover, hmk, hparse]

/-- C2 (witness). -/
theorem c2_witness :
    create_skill { REVERSE_TEXT_SKILL_DEFAULTS with entrypoint_params := "not json" }
        "" false []
      = ([RootEntry.dir "reverse-text" []], CreateOutcome.paramsError) := by
  have h := (c2_create_skill_atomicity.2
    { REVERSE_TEXT_SKILL_DEFAULTS with entrypoint_params := "not json" }
    "" false [] [RootEntry.dir "reverse-text" []]
    (by rfl) (by rintro ⟨h1, _⟩; cases h1) (by rfl) (by rfl)).1
  exact h

/-- C5: a valid record whose `hubId` folder already exists, with overwrite
disabled, fails at STEP 3 with the already-exists modal; the returned root
is the input root, so nothing was created, written or modified. -/
theorem c5_exists_no_overwrite (m : FieldMap) (p : String) (root : SkillsRoot)
    (hval : validateRequired m = [])
    (hex : rootHas root (strippedMap m).hubId = true) :
    create_skill m p false root
      = (root, CreateOutcome.existsError ("Skill " ++ sq ++ (strippedMap m).hubId
          ++ sq ++ " already exists.")) := by
  unfold create_skill
  rw [if_neg (by simp [hval]), if_pos ⟨hex, rfl⟩]

/-- C5 (witness). -/
theorem c5_witness :
    create_skill REVERSE_TEXT_SKILL_DEFAULTS "" false
        [RootEntry.dir "reverse-text" [("plugin.json", "x")]]
      = ([RootEntry.dir "reverse-text" [("plugin.json", "x")]],
         CreateOutcome.existsError ("Skill " ++ sq
           ++ (strippedMap REVERSE_TEXT_SKILL_DEFAULTS).hubId
           ++ sq ++ " already exists.")) :=
  c5_exists_no_overwrite REVERSE_TEXT_SKILL_DEFAULTS ""
    [RootEntry.dir "reverse-text" [("plugin.json", "x")]] (by rfl) (by rfl)

end SkillEd

namespace SkillEd

/-- The validation message spells out the field's key. -/
theorem strIn_emptyFieldMsg (k : String) :
    strIn k.toList (emptyFieldMsg k).toList = true := by
  have he : (emptyFieldMsg k).toList
      = Char.ofNat 39 :: ((k.toList ++ (String.mk [Char.ofNat 39]).toList)
          ++ " cannot be empty.".toList) := rfl
  rw [he, List.append_assoc]
  exact strIn_cons_append _ _ _

/-- C4: when exactly one of the eight required fields strips to nothing,
STEP 1 of `create_skill` reports exactly one error, and that message
contains the missing field's key. -/
theorem c4_single_missing_field (m : FieldMap) (i : Fin 8)
    (hmiss : pyStrip (fieldAt m i) = "")
    (hrest : ∀ j : Fin 8, j ≠ i → pyStrip (fieldAt m j) ≠ "") :
    validateRequired m = [emptyFieldMsg (keyAt i)]
    ∧ strIn (keyAt i).toList (emptyFieldMsg (keyAt i)).toList = true := by
  refine ⟨?_, strIn_emptyFieldMsg _⟩
  have hj : ∀ j : Fin 8, pyStrip (fieldAt m j) = "" ↔ j = i := by
    intro j
    constructor
    · intro hje
      by_contra hne
      exact hrest j hne hje
    · intro hje
      rw [hje]
      exact hmiss
  have f0 : pyStrip m.name = "" ↔ (0 : Fin 8) = i := hj 0
  have f1 : pyStrip m.hubId = "" ↔ (1 : Fin 8) = i := hj 1
  have f2 : pyStrip m.description = "" ↔ (2 : Fin 8) = i := hj 2
  have f3 : pyStrip m.entrypoint_file = "" ↔ (3 : Fin 8) = i := hj 3
  have f4 : pyStrip m.entrypoint_params = "" ↔ (4 : Fin 8) = i := hj 4
  have f5 : pyStrip m.output_description = "" ↔ (5 : Fin 8) = i := hj 5
  have f6 : pyStrip m.version = "" ↔ (6 : Fin 8) = i := hj 6
  have f7 : pyStrip m.schema = "" ↔ (7 : Fin 8) = i := hj 7
  clear hj hmiss hrest
  fin_cases i <;>
    (simp [validateRequired, fieldEntries, f0, f1, f2, f3, f4, f5, f6, f7,
      keyAt, requiredKeys] <;> rfl)

/-- C4 (witness). -/
theorem c4_witness :
    validateRequired { REVERSE_TEXT_SKILL_DEFAULTS with name := "  " }
      = [emptyFieldMsg (keyAt 0)] :=
  (c4_single_missing_field { REVERSE_TEXT_SKILL_DEFAULTS with name := "  " } 0
    (by rfl) (by decide)).1

/-- C7: when all eight required fields are non-empty after stripping and
the stripped `entrypoint_params` parses as JSON, validation reports no
error, and the parsed value survives a `json.dumps`/`json.loads`
round-trip unchanged — exactly the trip a created skill's params take when
the Modify form re-serializes and the file is re-parsed. -/
theorem c7_valid_mapping_roundtrip (m : FieldMap) (v : Json)
    (hfields : ∀ i : Fin 8, pyStrip (fieldAt m i) ≠ "")
    (hparse : pyLoads (pyStrip m.entrypoint_params) = some v) :
    validateRequired m = [] ∧ pyLoads (pyDumps v) = some v := by
  constructor
  · have e0 : pyStrip m.name ≠ "" := hfields 0
    have e1 : pyStrip m.hubId ≠ "" := hfields 1
    have e2 : pyStrip m.description ≠ "" := hfields 2
    have e3 : pyStrip m.entrypoint_file ≠ "" := hfields 3
    have e4 : pyStrip m.entrypoint_params ≠ "" := hfields 4
    have e5 : pyStrip m.output_description ≠ "" := hfields 5
    have e6 : pyStrip m.version ≠ "" := hfields 6
    have e7 : pyStrip m.schema ≠ "" := hfields 7
    simp [validateRequired, fieldEntries, e0, e1, e2, e3, e4, e5, e6, e7]
  · exact pyLoads_pyDumps hparse

/-- C7 (witness). -/
theorem c7_witness :
    validateRequired tinyFields = []
    ∧ pyLoads (pyDumps (Json.num 1)) = some (Json.num 1) :=
  c7_valid_mapping_roundtrip tinyFields (Json.num 1) (by decide) (by rfl)

end SkillEd

namespace SkillEd

set_option maxRecDepth 100000 in
/-- C3 (counterexample): the nominal Modify flow — Preview, then Update —
persists, through `update_skill`, a document carrying a top-level
`output_description` key (which `preview_skill` always includes and whose
emptiness the update validation even requires checking), so the persisted
document does not have exactly the claimed seven-key shape. -/
theorem c3_update_persists_output_description :
    update_skill (previewPluginText tinyFields) [RootEntry.dir "h" []] "h"
      = ([RootEntry.dir "h" [("plugin.json", pyDumpsInd (previewDoc tinyFields))]],
         UpdateOutcome.updated (previewDoc tinyFields))
    ∧ (match previewDoc tinyFields with
       | Json.obj ms => "output_description".toList ∈ keysOf ms
       | _ => False) := by
  refine ⟨by with_unfolding_all rfl, ?_⟩
  simp [previewDoc, keysOf]

/-- C3 (amended): skill creation persists exactly the claimed shape —
`{active: true, hubId, name, schema, version, description,
entrypoint: {file, params}}` with `params` the parsed input; skill update
persists exactly the parsed preview text, and a preview-generated document
always carries the additional top-level `output_description` key. -/
theorem c3_persisted_plugin_shapes :
    (∀ (m : FieldMap) (p : String) (a : Bool) (root root' : SkillsRoot)
        (doc : Json) (h : String),
       create_skill m p a root = (root', .created doc h) →
       ∃ pj, pyLoads (strippedMap m).entrypoint_params = some pj
         ∧ doc = Json.obj
            [("active".toList, Json.bool true),
             ("hubId".toList, Json.str (strippedMap m).hubId.toList),
             ("name".toList, Json.str (strippedMap m).name.toList),
             ("schema".toList, Json.str (strippedMap m).schema.toList),
             ("version".toList, Json.str (strippedMap m).version.toList),
             ("description".toList, Json.str (strippedMap m).description.toList),
             ("entrypoint".toList, Json.obj
               [("file".toList, Json.str (strippedMap m).entrypoint_file.toList),
                ("params".toList, pj)])])
    ∧ (∀ (t : String) (root : SkillsRoot) (folder : String) (root' : SkillsRoot)
        (doc : Json),
       update_skill t root folder = (root', .updated doc) → pyLoads t = some doc)
    ∧ (∀ d : FieldMap,
       (match previewDoc d with
        | Json.obj ms => "output_description".toList ∈ keysOf ms
        | _ => False)) := by
  refine ⟨?_, ?_, ?_⟩
  · intro m p a root root' doc h hrun
    unfold create_skill at hrun
    by_cases hval : validateRequired m ≠ []
    · rw [if_pos hval] at hrun
      exact absurd (congrArg Prod.snd hrun) (by simp)
    · rw [if_neg hval] at hrun
      by_cases hov : rootHas root (strippedMap m).hubId = true ∧ a = false
      · rw [if_pos hov] at hrun
        exact absurd (congrArg Prod.snd hrun) (by simp)
      · rw [if_neg hov] at hrun
        cases hmk : makedirs root (strippedMap m).hubId with
        | none =>
            rw [hmk] at hrun
            exact absurd (congrArg Prod.snd hrun) (by simp)
        | some root1 =>
            rw [hmk] at hrun
            cases hp : pyLoads (strippedMap m).entrypoint_params with
            | none =>
                rw [hp] at hrun
                exact absurd (congrArg Prod.snd hrun) (by simp)
            | some pj =>
                rw [hp] at hrun
                simp only at hrun
                refine ⟨pj, rfl, ?_⟩
                have hs := congrArg Prod.snd hrun
                simp only at hs
                injection hs with h1 h2
                exact h1.symm
  · intro t root folder root' doc hrun
    exact update_skill_parsed hrun
  · intro d
    simp [previewDoc, keysOf]

set_option maxRecDepth 100000 in
/-- C3 (witness). -/
theorem c3_witness :
    pyLoads (previewPluginText tinyFields) = some (previewDoc tinyFields) :=
  c3_persisted_plugin_shapes.2.1 (previewPluginText tinyFields)
    [RootEntry.dir "h" []] "h"
    [RootEntry.dir "h" [("plugin.json", pyDumpsInd (previewDoc tinyFields))]]
    (previewDoc tinyFields) (by with_unfolding_all rfl)

end SkillEd

namespace SkillEd

set_option maxRecDepth 100000 in
/-- C6 (counterexample): a folder whose `plugin.json` is a JSON *array* of
the five key names (next to a `handler.js`) is listed — Python's
`key in pdata` on a parsed list is element membership, so
`all(key in pdata for key in [...])` passes — although the document has no
top-level keys at all, contradicting the claim's `contains the five
mandatory top-level keys` reading (made precise by
`specValidSkillFiles`). -/
theorem c6_array_plugin_accepted :
    populate_skill_dropdown [RootEntry.dir "weird" weirdFiles] = ["weird"]
    ∧ specValidSkillFiles weirdFiles = false := by
  constructor
  · unfold populate_skill_dropdown
    have h : ([RootEntry.dir "weird" weirdFiles] : SkillsRoot).filterMap
        (fun e => match e with
          | RootEntry.dir nm files => if validSkillFiles files then some nm else none
          | RootEntry.file _ _ => none) = ["weird"] := by
      with_unfolding_all rfl
    rw [h]
    simp
  · with_unfolding_all rfl

/-- C6 (amended): the listing returns exactly the immediate subdirectories
whose contents pass the code's checks — `plugin.json` present and parsing
as JSON, the five mandatory names accepted by Python's `in` on the parsed
document (dict-key membership only when the document is an object; element
membership in a list, substring in a string), and a `handler.js` present —
sorted case-insensitively; every other entry is silently skipped. -/
theorem c6_listing_contract (root : SkillsRoot) :
    (∀ nm, nm ∈ populate_skill_dropdown root ↔
       (∃ files, RootEntry.dir nm files ∈ root ∧ validSkillFiles files = true))
    ∧ (populate_skill_dropdown root).Pairwise (fun a b => lowerLe a b = true) := by
  constructor
  · intro nm
    unfold populate_skill_dropdown
    rw [List.Perm.mem_iff (List.mergeSort_perm _ _)]
    rw [List.mem_filterMap]
    constructor
    · rintro ⟨e, he, hsome⟩
      match e with
      | RootEntry.file n c => simp at hsome
      | RootEntry.dir n files =>
          simp only at hsome
          by_cases hv : validSkillFiles files = true
          · rw [if_pos hv] at hsome
            injection hsome with hn
            subst hn
            exact ⟨files, he, hv⟩
          · rw [if_neg hv] at hsome
            cases hsome
    · rintro ⟨files, hmem, hval⟩
      refine ⟨RootEntry.dir nm files, hmem, ?_⟩
      simp only
      rw [if_pos hval]
  · exact List.sorted_mergeSort lowerLe_trans lowerLe_total _

/-- C6 (witness). -/
theorem c6_witness :
    "weird" ∈ populate_skill_dropdown [RootEntry.dir "weird" weirdFiles] :=
  ((c6_listing_contract [RootEntry.dir "weird" weirdFiles]).1 "weird").mpr
    ⟨weirdFiles, by simp, by with_unfolding_all rfl⟩

end SkillEd

namespace SkillEd

set_option maxRecDepth 100000 in
/-- C8 (counterexample): the preview `QTextEdit` is editable and
`installEventFilter` watches only the eight line edits, so typing in the
preview area after a Preview leaves Update enabled while the area no
longer holds the text of the most recent Preview action. -/
theorem c8_preview_edit_breaks_invariant :
    (modRun (modInit tinyFields)
        [ModEvent.previewClick, ModEvent.typeInPreview "x"]).updateEnabled = true
    ∧ some (modRun (modInit tinyFields)
        [ModEvent.previewClick, ModEvent.typeInPreview "x"]).previewText
      ≠ (modRun (modInit tinyFields)
        [ModEvent.previewClick, ModEvent.typeInPreview "x"]).lastPreviewOutput := by
  refine ⟨rfl, ?_⟩
  intro h
  have h2 : "x" = previewPluginText tinyFields := by
    injection h
  have h3 : "x" ≠ previewPluginText tinyFields := by with_unfolding_all decide
  exact absurd h2 h3

/-- C8 (amended): whenever Update is enabled, some Preview has run and no
form field has received focus since it (a `FocusIn` on a line edit
disables Update and clears the preview area) — but the editable preview
area itself carries no such guard, so the area's text may have been
retyped since that Preview; `update_skill` accordingly always persists the
parsed current content of the preview area, never the form widgets'
text. -/
theorem c8_mod_invariant (loaded : FieldMap) (tr : List ModEvent) :
    ((modRun (modInit loaded) tr).updateEnabled = true →
       (modRun (modInit loaded) tr).lastPreviewOutput.isSome = true
       ∧ (modRun (modInit loaded) tr).fieldFocusSincePreview = false)
    ∧ (∀ (t : String) (root root' : SkillsRoot) (folder : String) (doc : Json),
         update_skill t root folder = (root', UpdateOutcome.updated doc) →
         pyLoads t = some doc) := by
  constructor
  · suffices h : ∀ (tr : List ModEvent) (s : ModState),
        (s.updateEnabled = true →
          s.lastPreviewOutput.isSome = true ∧ s.fieldFocusSincePreview = false) →
        ((modRun s tr).updateEnabled = true →
          (modRun s tr).lastPreviewOutput.isSome = true
          ∧ (modRun s tr).fieldFocusSincePreview = false) by
      exact h tr (modInit loaded) (fun hc => absurd hc (by simp [modInit]))
    intro tr
    induction tr with
    | nil => intro s hs; exact hs
    | cons e t ih =>
        intro s hs
        refine ih (modStep s e) ?_
        cases e with
        | previewClick => intro _; exact ⟨rfl, rfl⟩
        | focusField i => intro hc; exact absurd hc (by simp [modStep])
        | typeInField i v => exact hs
        | typeInPreview t2 => exact hs
  · intro t root root' folder doc h
    exact update_skill_parsed h

/-- C8 (witness). -/
theorem c8_witness :
    (modRun (modInit tinyFields) [ModEvent.previewClick]).updateEnabled = true
    ∧ ((modRun (modInit tinyFields) [ModEvent.previewClick]).lastPreviewOutput.isSome
         = true
       ∧ (modRun (modInit tinyFields) [ModEvent.previewClick]).fieldFocusSincePreview
         = false) :=
  ⟨rfl, (c8_mod_invariant tinyFields [ModEvent.previewClick]).1 rfl⟩

end SkillEd

namespace SkillEd

/-- C9: `AddSkillDialog.__init__` never assigns `update_btn` and no Add
dialog event creates one, so in every reachable Add-dialog state
`preview_skill` first sets the preview area to the generated plugin text
and then raises `AttributeError` at `self.update_btn.setEnabled(True)`:
the text update is always applied, the method never returns normally. -/
theorem c9_add_preview_always_raises (m : FieldMap) (tr : List AddEvent) :
    (addRun (addInit m) tr).update_btn = none
    ∧ (add_preview_skill (addRun (addInit m) tr)).1.previewText
        = previewPluginText (addRun (addInit m) tr).fields
    ∧ (add_preview_skill (addRun (addInit m) tr)).2 = some PyError.attributeError := by
  have hinv : ∀ (tr : List AddEvent) (s : AddState), s.update_btn = none →
      (addRun s tr).update_btn = none := by
    intro tr
    induction tr with
    | nil => intro s hs; exact hs
    | cons e t ih =>
        intro s hs
        refine ih (addStep s e) ?_
        cases e with
        | previewClick => simp [addStep, add_preview_skill, hs]
        | clearForm => exact hs
        | typeInField i v => exact hs
        | typeInPreview t2 => exact hs
  have hnone : (addRun (addInit m) tr).update_btn = none := hinv tr (addInit m) rfl
  refine ⟨hnone, ?_, ?_⟩
  · simp [add_preview_skill, hnone]
  · simp [add_preview_skill, hnone]

end SkillEd

namespace SkillEd

/-- C10: whenever `create_skill` reaches the handler-writing step (its run
ends `created`), the handler content is the stripped preview-area text
when that is non-empty and the built-in default boilerplate otherwise; it
is never empty, and it is read back from the skill folder under the
entrypoint filename. -/
theorem c10_handler_written_nonempty (m : FieldMap) (p : String) (a : Bool)
    (root root' : SkillsRoot) (doc : Json) (h : String)
    (hrun : create_skill m p a root = (root', CreateOutcome.created doc h)) :
    h = (if pyStrip p ≠ "" then pyStrip p else DEFAULT_HANDLER)
    ∧ h ≠ ""
    ∧ ∃ fs, dirFiles? root' (strippedMap m).hubId = some fs
        ∧ lookupAssoc fs (strippedMap m).entrypoint_file = some h := by
  unfold create_skill at hrun
  by_cases hval : validateRequired m ≠ []
  · rw [if_pos hval] at hrun
    exact absurd (congrArg Prod.snd hrun) (by simp)
  · rw [if_neg hval] at hrun
    by_cases hov : rootHas root (strippedMap m).hubId = true ∧ a = false
    · rw [if_pos hov] at hrun
      exact absurd (congrArg Prod.snd hrun) (by simp)
    · rw [if_neg hov] at hrun
      cases hmk : makedirs root (strippedMap m).hubId with
      | none =>
          rw [hmk] at hrun
          exact absurd (congrArg Prod.snd hrun) (by simp)
      | some root1 =>
          rw [hmk] at hrun
          cases hp : pyLoads (strippedMap m).entrypoint_params with
          | none =>
              rw [hp] at hrun
              exact absurd (congrArg Prod.snd hrun) (by simp)
          | some pj =>
              rw [hp] at hrun
              simp only at hrun
              have hfst := congrArg Prod.fst hrun
              have hsnd := congrArg Prod.snd hrun
              simp only at hfst hsnd
              injection hsnd with hdoc hh
              refine ⟨hh.symm, ?_, ?_⟩
              · rw [← hh]
                by_cases hpe : pyStrip p ≠ ""
                · rw [if_pos hpe]; exact hpe
                · rw [if_neg hpe]; intro hc; exact absurd hc (by decide)
              · obtain ⟨fs0, hfs0⟩ := makedirs_dirFiles hmk
                have hfs1 := writeFile_dirFiles "plugin.json"
                  (pyDumpsInd (Json.obj
                    [("active".toList, .bool true),
                     ("hubId".toList, .str (strippedMap m).hubId.toList),
                     ("name".toList, .str (strippedMap m).name.toList),
                     ("schema".toList, .str (strippedMap m).schema.toList),
                     ("version".toList, .str (strippedMap m).version.toList),
                     ("description".toList, .str (strippedMap m).description.toList),
                     ("entrypoint".toList, .obj
                       [("file".toList, .str (strippedMap m).entrypoint_file.toList),
                        ("params".toList, pj)])])) hfs0
                have hfs2 := writeFile_dirFiles (strippedMap m).entrypoint_file
                  (if pyStrip p ≠ "" then pyStrip p else DEFAULT_HANDLER) hfs1
                rw [← hfst]
                refine ⟨_, hfs2, ?_⟩
                rw [lookup_updAssoc, hh]

end SkillEd

namespace SkillEd

set_option maxRecDepth 100000 in
/-- C10 (witness). -/
theorem c10_witness :
    create_skill tinyFields "" false []
      = ([RootEntry.dir "h"
            [("plugin.json", pyDumpsInd tinyDoc), ("f", DEFAULT_HANDLER)]],
         CreateOutcome.created tinyDoc DEFAULT_HANDLER)
    ∧ (DEFAULT_HANDLER = (if pyStrip "" ≠ "" then pyStrip "" else DEFAULT_HANDLER)
       ∧ DEFAULT_HANDLER ≠ ""
       ∧ ∃ fs, dirFiles?
             [RootEntry.dir "h"
               [("plugin.json", pyDumpsInd tinyDoc), ("f", DEFAULT_HANDLER)]]
             (strippedMap tinyFields).hubId = some fs
           ∧ lookupAssoc fs (strippedMap tinyFields).entrypoint_file
               = some DEFAULT_HANDLER) :=
  ⟨by with_unfolding_all rfl,
   c10_handler_written_nonempty tinyFields "" false []
     [RootEntry.dir "h" [("plugin.json", pyDumpsInd tinyDoc), ("f", DEFAULT_HANDLER)]]
     tinyDoc DEFAULT_HANDLER (by with_unfolding_all rfl)⟩

end SkillEd
